import Mathlib

/-!
Verification development for the `twitter2obsidian` repository.

The Rust sources are shallowly embedded below:
* `src/tweet.rs` — the `Tweet` model, `parse_tweets`, `parse_twitter_date`;
* `src/templates/mod.rs` — the `Formatter` text-rewriting rules;
* `src/templates/monthly_tweets.rs` — activity statistics and the
  monthly template input;
* `src/main.rs` — the date filters and the group-by-month loop.

Chrono's `DateTime<Local>` values are embedded as explicit calendar
records (`LocalDateTime`) compared lexicographically, which matches
`NaiveDateTime` comparison for a fixed local zone; the local zone is a
fixed UTC offset passed explicitly (in minutes) where conversion
matters.  Rust strings are viewed as their character sequences
(`List Char`); every text rule of the source operates on characters
from the ASCII/CJK repertoire where this view agrees with the byte-wise
behaviour of the `regex` crate (the `\d` class is modelled by its ASCII
fragment, which is the only part the repository's data exercises).
Panics (`unwrap`/`expect`) are embedded as `none` in an outer `Option`
layer; Rust `Result` values are embedded as `Except String`.
-/

/-! ## Small string helpers (zero-padded rendering, prefix test) -/

/-- Zero-pad a natural number to two digits, as `format!("{:02}", n)`. -/
def pad2 (n : Nat) : String :=
  if n < 10 then "0" ++ toString n else toString n

/-- Zero-pad a natural number to three digits, as chrono's `%3f`. -/
def pad3 (n : Nat) : String :=
  if n < 10 then "00" ++ toString n
  else if n < 100 then "0" ++ toString n
  else toString n

/-- Zero-pad a natural number to four digits, as chrono's `%Y` on
nonnegative years. -/
def pad4 (n : Nat) : String :=
  if n < 10 then "000" ++ toString n
  else if n < 100 then "00" ++ toString n
  else if n < 1000 then "0" ++ toString n
  else toString n

/-- Chrono's `%Y`: the year zero-padded to four digits, with a sign for
negative years. -/
def pad4Int (i : Int) : String :=
  if 0 ≤ i then pad4 i.toNat else "-" ++ pad4 (-i).toNat

/-- `p` is a prefix of `s`, character by character: the embedding of
Rust's `str::starts_with` for string patterns. -/
def startsWithChars : List Char → List Char → Bool
  | [], _ => true
  | _ :: _, [] => false
  | p :: ps, c :: cs => p = c && startsWithChars ps cs

/-- Three-way comparison on `Nat` (explicit, to keep full control over
the `Ordering` lemmas used below). -/
def cmpNat (a b : Nat) : Ordering :=
  if a < b then .lt else if b < a then .gt else .eq

/-- Three-way comparison on `Int`. -/
def cmpInt (a b : Int) : Ordering :=
  if a < b then .lt else if b < a then .gt else .eq

/-- Byte-lexicographic comparison of two character lists; for the ASCII
strings produced by timestamp formatting this is exactly Rust's
`str::cmp`. -/
def lexCmpChars : List Char → List Char → Ordering
  | [], [] => .eq
  | [], _ :: _ => .lt
  | _ :: _, [] => .gt
  | a :: as, b :: bs =>
    if a < b then .lt else if b < a then .gt else lexCmpChars as bs

/-! ## The Tweet model (`src/tweet.rs`) -/

/-- A calendar date-time in the local zone, the embedding of
`DateTime<Local>` as stored in `Tweet` (compared through
`naive_local()`, i.e. lexicographically on the calendar fields; the
millisecond field carries chrono's sub-second component used by
`%3f`). -/
structure LocalDateTime where
  year : Int
  month : Nat
  day : Nat
  hour : Nat
  minute : Nat
  second : Nat
  millisecond : Nat
deriving DecidableEq, Repr

/-- Lexicographic comparison of local date-times: the embedding of
`NaiveDateTime` ordering used by the filters, grouping and `min_by`. -/
def cmpLDT (a b : LocalDateTime) : Ordering :=
  (cmpInt a.year b.year).then <|
    (cmpNat a.month b.month).then <|
      (cmpNat a.day b.day).then <|
        (cmpNat a.hour b.hour).then <|
          (cmpNat a.minute b.minute).then <|
            (cmpNat a.second b.second).then (cmpNat a.millisecond b.millisecond)

/-- `a < b` on local date-times. -/
def ldtLt (a b : LocalDateTime) : Bool :=
  match cmpLDT a b with
  | .lt => true
  | _ => false

/-- `a ≤ b` on local date-times. -/
def ldtLe (a b : LocalDateTime) : Bool :=
  match cmpLDT a b with
  | .gt => false
  | _ => true

/-- The embedding of `struct Tweet` from `src/tweet.rs`. -/
structure Tweet where
  created_at : LocalDateTime
  full_text : String
  is_reply : Bool
deriving DecidableEq, Repr

/-- `Tweet::is_retweet`: the body starts with the literal `"RT @"`. -/
def Tweet.is_retweet (t : Tweet) : Bool :=
  startsWithChars "RT @".data t.full_text.data

/-! ## Activity statistics (`src/templates/monthly_tweets.rs`) -/

/-- The embedding of `struct TweetCountByHour`. -/
structure TweetCountByHour where
  hour : Nat
  tweet_count : Nat
  retweet_count : Nat
  reply_count : Nat
deriving DecidableEq, Repr

/-- `TweetCountByHour::new`: a zeroed bucket for a given hour. -/
def TweetCountByHour.new (hour : Nat) : TweetCountByHour :=
  { hour := hour, tweet_count := 0, retweet_count := 0, reply_count := 0 }

/-- The embedding of `struct ActivityStats`. -/
structure ActivityStats where
  tweet_count : Nat
  retweet_count : Nat
  reply_count : Nat
  tweet_count_by_hour : List TweetCountByHour
deriving DecidableEq, Repr

/-- The 24 zero-filled buckets built at the top of
`generate_activity_stats`. -/
def initBuckets : List TweetCountByHour :=
  (List.range 24).map TweetCountByHour.new

/-- One loop iteration of `generate_activity_stats`: bump the bucket at
index `h`, incrementing its retweet/reply sub-counts when the
respective flag holds. -/
def incAt (bs : List TweetCountByHour) (h : Nat) (isRT isRe : Bool) :
    List TweetCountByHour :=
  match bs, h with
  | [], _ => []
  | b :: t, 0 =>
    { b with
      tweet_count := b.tweet_count + 1,
      retweet_count := b.retweet_count + (if isRT then 1 else 0),
      reply_count := b.reply_count + (if isRe then 1 else 0) } :: t
  | b :: t, h + 1 => b :: incAt t h isRT isRe

/-- The bucket-filling loop of `generate_activity_stats`. -/
def fillBuckets (ts : List Tweet) (bs : List TweetCountByHour) :
    List TweetCountByHour :=
  ts.foldl (fun bs t => incAt bs t.created_at.hour t.is_retweet t.is_reply) bs

/-- The embedding of
`MonthlyTweetsTemplateInput::generate_activity_stats`. -/
def generateActivityStats (ts : List Tweet) : ActivityStats :=
  { tweet_count := ts.length
    retweet_count := (ts.filter Tweet.is_retweet).length
    reply_count := (ts.filter Tweet.is_reply).length
    tweet_count_by_hour := fillBuckets ts initBuckets }

/-! ### Bucket lemmas -/

theorem incAt_length (bs : List TweetCountByHour) (h : Nat) (r p : Bool) :
    (incAt bs h r p).length = bs.length := by
  induction bs generalizing h with
  | nil => rfl
  | cons b t ih =>
    cases h with
    | zero => rfl
    | succ h => simpa [incAt] using ih h

theorem incAt_getElem? (bs : List TweetCountByHour) (h : Nat) (r p : Bool)
    (i : Nat) :
    (incAt bs h r p)[i]? =
      if i = h then
        (bs[i]?).map fun b =>
          { b with
            tweet_count := b.tweet_count + 1,
            retweet_count := b.retweet_count + (if r then 1 else 0),
            reply_count := b.reply_count + (if p then 1 else 0) }
      else bs[i]? := by
  induction bs generalizing h i with
  | nil => simp [incAt]
  | cons b t ih =>
    cases h with
    | zero =>
      cases i with
      | zero => simp [incAt]
      | succ i => simp [incAt]
    | succ h =>
      cases i with
      | zero => simp [incAt]
      | succ i =>
        simp only [incAt, List.getElem?_cons_succ]
        rw [ih h i]
        simp [Nat.succ_inj]

theorem fillBuckets_getElem? (ts : List Tweet) (bs : List TweetCountByHour)
    (i : Nat) :
    (fillBuckets ts bs)[i]? =
      (bs[i]?).map fun b =>
        { b with
          tweet_count :=
            b.tweet_count + (ts.countP fun t => t.created_at.hour = i),
          retweet_count :=
            b.retweet_count +
              (ts.countP fun t => t.created_at.hour = i && t.is_retweet),
          reply_count :=
            b.reply_count +
              (ts.countP fun t => t.created_at.hour = i && t.is_reply) } := by
  induction ts generalizing bs with
  | nil =>
    cases hbs : bs[i]? <;> simp [fillBuckets, hbs]
  | cons t rest ih =>
    have step : fillBuckets (t :: rest) bs =
        fillBuckets rest (incAt bs t.created_at.hour t.is_retweet t.is_reply) := rfl
    rw [step, ih, incAt_getElem?]
    by_cases hit : i = t.created_at.hour
    · rw [if_pos hit]
      cases hbs : bs[i]? with
      | none => simp
      | some b =>
        have h1 : (decide (t.created_at.hour = i)) = true := by simp [hit]
        simp only [Option.map_some', Option.some.injEq, List.countP_cons, h1,
          Bool.true_and]
        cases hr : t.is_retweet <;> cases hp : t.is_reply <;>
          simp [TweetCountByHour.mk.injEq] <;> omega
    · rw [if_neg hit]
      cases hbs : bs[i]? with
      | none => simp
      | some b =>
        have h1 : (decide (t.created_at.hour = i)) = false := by
          simp
          exact fun h => hit h.symm
        simp [List.countP_cons, h1]

theorem initBuckets_getElem? (i : Nat) (hi : i < 24) :
    initBuckets[i]? = some (TweetCountByHour.new i) := by
  have : initBuckets[i]? = ((List.range 24)[i]?).map TweetCountByHour.new := by
    simp [initBuckets]
  rw [this, List.getElem?_range hi]
  rfl

/-! ### Claims C1 and C9 -/

/-- A concrete three-post group: local hours 0, 2 (a retweet), and 23
(a reply). -/
def exampleGroupC1 : List Tweet :=
  [ { created_at := ⟨2023, 3, 15, 0, 12, 48, 0⟩,
      full_text := "good morning", is_reply := false },
    { created_at := ⟨2023, 3, 12, 2, 12, 48, 0⟩,
      full_text := "RT @someone: shared", is_reply := false },
    { created_at := ⟨2023, 3, 14, 23, 12, 48, 0⟩,
      full_text := "@someone late night", is_reply := true } ]

/-- **C1.** `generate_activity_stats` returns `tweet_count` equal to the
number of posts in the group, `retweet_count` equal to the number of
posts whose body starts with `"RT @"`, `reply_count` equal to the number
of posts with `is_reply` true, and hour bucket `h` counts exactly the
posts whose local hour is `h`, with retweet/reply sub-counts incremented
independently; for the concrete group with posts at local hours 0,
2 (retweet) and 23 (reply) the stats are exactly as the claim lists
them (buckets 0, 2, 23 non-trivial, the other 21 buckets all-zero). -/
theorem generateActivityStats_correct (ts : List Tweet)
    (hh : ∀ t ∈ ts, t.created_at.hour < 24) :
    (generateActivityStats ts).tweet_count = ts.length ∧
    (generateActivityStats ts).retweet_count = ts.countP Tweet.is_retweet ∧
    (generateActivityStats ts).reply_count = ts.countP Tweet.is_reply ∧
    (∀ h, h < 24 →
      (generateActivityStats ts).tweet_count_by_hour[h]? =
        some { hour := h,
               tweet_count := ts.countP fun t => t.created_at.hour = h,
               retweet_count :=
                 ts.countP fun t => t.created_at.hour = h && t.is_retweet,
               reply_count :=
                 ts.countP fun t => t.created_at.hour = h && t.is_reply }) ∧
    (generateActivityStats ts).tweet_count_by_hour.length = 24 ∧
    generateActivityStats exampleGroupC1 =
      { tweet_count := 3, retweet_count := 1, reply_count := 1,
        tweet_count_by_hour :=
          [⟨0, 1, 0, 0⟩, ⟨1, 0, 0, 0⟩, ⟨2, 1, 1, 0⟩, ⟨3, 0, 0, 0⟩,
           ⟨4, 0, 0, 0⟩, ⟨5, 0, 0, 0⟩, ⟨6, 0, 0, 0⟩, ⟨7, 0, 0, 0⟩,
           ⟨8, 0, 0, 0⟩, ⟨9, 0, 0, 0⟩, ⟨10, 0, 0, 0⟩, ⟨11, 0, 0, 0⟩,
           ⟨12, 0, 0, 0⟩, ⟨13, 0, 0, 0⟩, ⟨14, 0, 0, 0⟩, ⟨15, 0, 0, 0⟩,
           ⟨16, 0, 0, 0⟩, ⟨17, 0, 0, 0⟩, ⟨18, 0, 0, 0⟩, ⟨19, 0, 0, 0⟩,
           ⟨20, 0, 0, 0⟩, ⟨21, 0, 0, 0⟩, ⟨22, 0, 0, 0⟩, ⟨23, 1, 0, 1⟩] } := by
  refine ⟨rfl, ?_, ?_, ?_, ?_, by decide⟩
  · simp [generateActivityStats, List.countP_eq_length_filter]
  · simp [generateActivityStats, List.countP_eq_length_filter]
  · intro h hlt
    show (fillBuckets ts initBuckets)[h]? = _
    rw [fillBuckets_getElem?, initBuckets_getElem? h hlt]
    simp [TweetCountByHour.new]
  · show (fillBuckets ts initBuckets).length = 24
    have : ∀ us bs, (fillBuckets us bs).length = bs.length := by
      intro us
      induction us with
      | nil => intro bs; rfl
      | cons u rest ih =>
        intro bs
        show (fillBuckets rest _).length = _
        rw [ih, incAt_length]
    rw [this]
    decide

/-- Witness for C1: the theorem applied to the concrete example group. -/
theorem generateActivityStats_correct_witness :
    (generateActivityStats exampleGroupC1).tweet_count = 3 ∧
    (generateActivityStats exampleGroupC1).tweet_count_by_hour[2]? =
      some { hour := 2, tweet_count := 1, retweet_count := 1,
             reply_count := 0 } := by
  have h := generateActivityStats_correct exampleGroupC1 (by decide)
  constructor
  · rw [h.1]
    rfl
  · rw [h.2.2.2.1 2 (by decide)]
    decide

/-- **C9.** On the empty group, `generate_activity_stats` yields
all-zero totals and all 24 hour buckets present (bucket `h` carrying
hour `h`) and all-zero — no sparse representation. -/
theorem generateActivityStats_empty :
    generateActivityStats [] =
      { tweet_count := 0, retweet_count := 0, reply_count := 0,
        tweet_count_by_hour := (List.range 24).map TweetCountByHour.new } ∧
    (generateActivityStats []).tweet_count_by_hour.length = 24 ∧
    (∀ h, h < 24 →
      (generateActivityStats []).tweet_count_by_hour[h]? =
        some { hour := h, tweet_count := 0, retweet_count := 0,
               reply_count := 0 }) ∧
    ∀ b ∈ (generateActivityStats []).tweet_count_by_hour,
      b.tweet_count = 0 ∧ b.retweet_count = 0 ∧ b.reply_count = 0 := by
  decide

/-! ## Grouping by month (`src/main.rs`, the grouping loop) -/

/-- The month key `year*100 + month` computed in `main`'s grouping
loop. -/
def yyyymm (t : Tweet) : Int :=
  t.created_at.year * 100 + (t.created_at.month : Int)

/-- One step of the grouping loop: `entry(k).or_insert(vec![]).push(t)`
on an association list (the `HashMap` is embedded as an association
list keyed by the month key; the claim's properties are
order-independent). -/
def addToGroup : List (Int × List Tweet) → Int → Tweet → List (Int × List Tweet)
  | [], k, t => [(k, [t])]
  | (k', g) :: rest, k, t =>
    if k' = k then (k', g ++ [t]) :: rest else (k', g) :: addToGroup rest k t

/-- The grouping loop of `main`: fold all tweets into month groups. -/
def groupByMonth (ts : List Tweet) : List (Int × List Tweet) :=
  ts.foldl (fun gs t => addToGroup gs (yyyymm t) t) []

theorem addToGroup_cons_eq (k : Int) (g : List Tweet)
    (rest : List (Int × List Tweet)) (t : Tweet) :
    addToGroup ((k, g) :: rest) k t = (k, g ++ [t]) :: rest := by
  simp [addToGroup]

theorem addToGroup_cons_ne {k' k : Int} (hk : k' ≠ k) (g : List Tweet)
    (rest : List (Int × List Tweet)) (t : Tweet) :
    addToGroup ((k', g) :: rest) k t = (k', g) :: addToGroup rest k t := by
  simp [addToGroup, hk]

theorem addToGroup_keys (gs : List (Int × List Tweet)) (k : Int) (t : Tweet) :
    (addToGroup gs k t).map Prod.fst =
      if k ∈ gs.map Prod.fst then gs.map Prod.fst
      else gs.map Prod.fst ++ [k] := by
  induction gs with
  | nil => simp [addToGroup]
  | cons p rest ih =>
    obtain ⟨k', g⟩ := p
    by_cases hk : k' = k
    · subst hk
      rw [addToGroup_cons_eq]
      simp
    · rw [addToGroup_cons_ne hk]
      simp only [List.map_cons, ih]
      by_cases hmem : k ∈ rest.map Prod.fst
      · rw [if_pos hmem,
          if_pos (show k ∈ k' :: rest.map Prod.fst from
            List.mem_cons_of_mem _ hmem)]
      · rw [if_neg hmem, if_neg (show k ∉ k' :: rest.map Prod.fst from ?_)]
        · simp
        · intro h
          rcases List.mem_cons.mp h with h | h
          · exact hk h.symm
          · exact hmem h

theorem addToGroup_nodup (gs : List (Int × List Tweet)) (k : Int) (t : Tweet)
    (h : (gs.map Prod.fst).Nodup) :
    ((addToGroup gs k t).map Prod.fst).Nodup := by
  rw [addToGroup_keys]
  by_cases hmem : k ∈ gs.map Prod.fst
  · simpa [hmem] using h
  · simp only [if_neg hmem]
    simp [List.nodup_append, h, hmem]

theorem addToGroup_content (gs : List (Int × List Tweet)) (k : Int) (t : Tweet)
    (hinv : ∀ p ∈ gs, ∀ u ∈ p.2, yyyymm u = p.1) (ht : yyyymm t = k) :
    ∀ p ∈ addToGroup gs k t, ∀ u ∈ p.2, yyyymm u = p.1 := by
  induction gs with
  | nil =>
    intro p hp u hu
    rw [show addToGroup [] k t = [(k, [t])] from rfl, List.mem_singleton] at hp
    subst hp
    rw [List.mem_singleton] at hu
    subst hu
    exact ht
  | cons q rest ih =>
    obtain ⟨k', g⟩ := q
    by_cases hk : k' = k
    · subst hk
      rw [addToGroup_cons_eq]
      intro p hp u hu
      rcases List.mem_cons.mp hp with hp | hp
      · subst hp
        rcases List.mem_append.mp hu with hu | hu
        · exact hinv (k', g) (List.mem_cons_self _ _) u hu
        · rw [List.mem_singleton] at hu
          subst hu
          exact ht
      · exact hinv p (List.mem_cons_of_mem _ hp) u hu
    · rw [addToGroup_cons_ne hk]
      intro p hp u hu
      rcases List.mem_cons.mp hp with hp | hp
      · subst hp
        exact hinv (k', g) (List.mem_cons_self _ _) u hu
      · exact ih (fun q hq => hinv q (List.mem_cons_of_mem _ hq)) p hp u hu

theorem addToGroup_flatten (gs : List (Int × List Tweet)) (k : Int)
    (t : Tweet) :
    ((addToGroup gs k t).map Prod.snd).flatten.Perm
      (t :: (gs.map Prod.snd).flatten) := by
  induction gs with
  | nil => simp [addToGroup]
  | cons q rest ih =>
    obtain ⟨k', g⟩ := q
    by_cases hk : k' = k
    · subst hk
      rw [addToGroup_cons_eq]
      simp only [List.map_cons, List.flatten_cons]
      have heq : g ++ [t] ++ (rest.map Prod.snd).flatten =
          g ++ t :: (rest.map Prod.snd).flatten := by
        rw [List.append_assoc]
        rfl
      rw [heq]
      exact List.perm_middle
    · rw [addToGroup_cons_ne hk]
      simp only [List.map_cons, List.flatten_cons]
      exact List.Perm.trans (ih.append_left g) List.perm_middle

theorem groupByMonth_fold_invariant (ts : List Tweet) :
    ∀ gs : List (Int × List Tweet),
      (gs.map Prod.fst).Nodup →
      (∀ p ∈ gs, ∀ u ∈ p.2, yyyymm u = p.1) →
      (((ts.foldl (fun gs t => addToGroup gs (yyyymm t) t) gs).map
          Prod.fst).Nodup ∧
        (∀ p ∈ ts.foldl (fun gs t => addToGroup gs (yyyymm t) t) gs,
          ∀ u ∈ p.2, yyyymm u = p.1) ∧
        ((ts.foldl (fun gs t => addToGroup gs (yyyymm t) t) gs).map
            Prod.snd).flatten.Perm ((gs.map Prod.snd).flatten ++ ts)) := by
  induction ts with
  | nil =>
    intro gs h1 h2
    exact ⟨h1, h2, by simp⟩
  | cons t rest ih =>
    intro gs h1 h2
    have hstep : (t :: rest).foldl (fun gs t => addToGroup gs (yyyymm t) t) gs =
        rest.foldl (fun gs t => addToGroup gs (yyyymm t) t)
          (addToGroup gs (yyyymm t) t) := rfl
    rw [hstep]
    obtain ⟨j1, j2, j3⟩ :=
      ih (addToGroup gs (yyyymm t) t)
        (addToGroup_nodup gs (yyyymm t) t h1)
        (addToGroup_content gs (yyyymm t) t h2 rfl)
    refine ⟨j1, j2, ?_⟩
    refine j3.trans ?_
    refine List.Perm.trans
      ((addToGroup_flatten gs (yyyymm t) t).append_right rest) ?_
    rw [List.cons_append]
    exact List.perm_middle.symm

/-- **C2.** Grouping by month is a partition: the month keys are
pairwise distinct, every group member carries the group's key
`year*100+month`, the concatenation of all groups is a permutation of
the input, every input post lies in the group keyed by its own
`year*100+month`, posts within one group share local year and month,
and (for valid month numbers) two posts have equal keys iff they share
local year and month. -/
theorem groupByMonth_partition (ts : List Tweet)
    (hm : ∀ t ∈ ts, 1 ≤ t.created_at.month ∧ t.created_at.month ≤ 12) :
    ((groupByMonth ts).map Prod.fst).Nodup ∧
    (∀ p ∈ groupByMonth ts, ∀ u ∈ p.2, yyyymm u = p.1) ∧
    ((groupByMonth ts).map Prod.snd).flatten.Perm ts ∧
    (∀ t ∈ ts, ∃ p ∈ groupByMonth ts, p.1 = yyyymm t ∧ t ∈ p.2) ∧
    (∀ p ∈ groupByMonth ts, ∀ t ∈ p.2, ∀ u ∈ p.2,
      t.created_at.year = u.created_at.year ∧
        t.created_at.month = u.created_at.month) ∧
    (∀ t ∈ ts, ∀ u ∈ ts,
      (yyyymm t = yyyymm u ↔
        t.created_at.year = u.created_at.year ∧
          t.created_at.month = u.created_at.month)) := by
  obtain ⟨h1, h2, h3⟩ :=
    groupByMonth_fold_invariant ts [] (by simp) (by simp)
  have h3' : ((groupByMonth ts).map Prod.snd).flatten.Perm ts := by
    simpa [groupByMonth] using h3
  have hmemts : ∀ p ∈ groupByMonth ts, ∀ u ∈ p.2, u ∈ ts := by
    intro p hp u hu
    refine h3'.mem_iff.mp ?_
    exact List.mem_flatten.mpr ⟨p.2, List.mem_map.mpr ⟨p, hp, rfl⟩, hu⟩
  have hkey : ∀ t ∈ ts, ∀ u ∈ ts,
      (yyyymm t = yyyymm u ↔
        t.created_at.year = u.created_at.year ∧
          t.created_at.month = u.created_at.month) := by
    intro t ht u hu
    obtain ⟨hm1, hm2⟩ := hm t ht
    obtain ⟨hm3, hm4⟩ := hm u hu
    unfold yyyymm
    constructor
    · intro h
      constructor <;> omega
    · rintro ⟨hy, hmm⟩
      rw [hy, hmm]
  refine ⟨by simpa [groupByMonth] using h1, by simpa [groupByMonth] using h2,
    h3', ?_, ?_, hkey⟩
  · intro t ht
    have : t ∈ ((groupByMonth ts).map Prod.snd).flatten := h3'.mem_iff.mpr ht
    obtain ⟨l, hl, htl⟩ := List.mem_flatten.mp this
    obtain ⟨p, hp, rfl⟩ := List.mem_map.mp hl
    have h2' : ∀ p ∈ groupByMonth ts, ∀ u ∈ p.2, yyyymm u = p.1 := by
      simpa [groupByMonth] using h2
    exact ⟨p, hp, (h2' p hp t htl).symm, htl⟩
  · intro p hp t htp u hup
    have h2' : ∀ p ∈ groupByMonth ts, ∀ u ∈ p.2, yyyymm u = p.1 := by
      simpa [groupByMonth] using h2
    have heq : yyyymm t = yyyymm u := by
      rw [h2' p hp t htp, h2' p hp u hup]
    exact (hkey t (hmemts p hp t htp) u (hmemts p hp u hup)).mp heq

/-- Witness for C2: the theorem applied to the concrete example group
(whose posts all lie in March 2023). -/
theorem groupByMonth_partition_witness :
    ((groupByMonth exampleGroupC1).map Prod.fst).Nodup ∧
    ((groupByMonth exampleGroupC1).map Prod.snd).flatten.Perm
      exampleGroupC1 := by
  have h := groupByMonth_partition exampleGroupC1 (by decide)
  exact ⟨h.1, h.2.2.1⟩

/-! ## Date filters (`src/main.rs`) -/

/-- Midnight on the first day of a month: the `NaiveDate` built from
`"{YYYY-MM}-01"` promoted to a `NaiveDateTime` by the filters. -/
def firstInstantOfMonth (y : Int) (m : Nat) : LocalDateTime :=
  ⟨y, m, 1, 0, 0, 0, 0⟩

/-- `checked_add_months(Months::new(1))` applied to the first day of a
month: the first day of the following month. -/
def nextMonthOf (y : Int) (m : Nat) : Int × Nat :=
  if m = 12 then (y + 1, 1) else (y, m + 1)

/-- The embedding of `filter_tweet_by_start_month` (the `YYYY-MM` bound
is taken already parsed into year and month; parse failure of the bound
is a fatal configuration `expect`, outside the per-record model). -/
def filter_tweet_by_start_month (ts : List Tweet) (y : Int) (m : Nat) :
    List Tweet :=
  ts.filter fun t => ldtLe (firstInstantOfMonth y m) t.created_at

/-- The embedding of `filter_tweet_by_end_month`: keep tweets strictly
before the first day of the month following the end month. -/
def filter_tweet_by_end_month (ts : List Tweet) (y : Int) (m : Nat) :
    List Tweet :=
  ts.filter fun t =>
    ldtLt t.created_at
      (firstInstantOfMonth (nextMonthOf y m).1 (nextMonthOf y m).2)

theorem cmpLDT_self (a : LocalDateTime) : cmpLDT a a = .eq := by
  simp [cmpLDT, cmpInt, cmpNat, Ordering.then]

theorem ldtLt_self (a : LocalDateTime) : ldtLt a a = false := by
  unfold ldtLt
  rw [cmpLDT_self]

theorem ldtLe_self (a : LocalDateTime) : ldtLe a a = true := by
  unfold ldtLe
  rw [cmpLDT_self]

theorem firstInstant_lt_next (y : Int) (m : Nat) :
    ldtLt (firstInstantOfMonth y m)
      (firstInstantOfMonth (nextMonthOf y m).1 (nextMonthOf y m).2) = true := by
  by_cases hm : m = 12
  · subst hm
    have hy : cmpInt y (y + 1) = .lt := by
      simp [cmpInt, lt_add_one]
    unfold ldtLt cmpLDT firstInstantOfMonth nextMonthOf
    simp [hy, Ordering.then]
  · have hy : cmpInt y y = .eq := by
      simp [cmpInt]
    have hmm : cmpNat m (m + 1) = .lt := by
      simp [cmpNat, Nat.lt_succ_self]
    unfold ldtLt cmpLDT firstInstantOfMonth nextMonthOf
    simp [hy, hmm, Ordering.then, hm]

/-- **C3.** The start filter keeps exactly the posts whose local
creation time is on or after the first instant of the start month, and
the end filter keeps exactly the posts strictly before the first
instant of the month following the end month; the first instant of the
end month passes the end filter's predicate, the first instant of the
following month does not, and the first instant of the start month
passes the start filter's predicate. -/
theorem month_filters_correct (ts : List Tweet) (y : Int) (m : Nat)
    (h1 : 1 ≤ m) (h2 : m ≤ 12) :
    (∀ t, t ∈ filter_tweet_by_start_month ts y m ↔
      t ∈ ts ∧ ldtLe (firstInstantOfMonth y m) t.created_at = true) ∧
    (∀ t, t ∈ filter_tweet_by_end_month ts y m ↔
      t ∈ ts ∧
        ldtLt t.created_at
          (firstInstantOfMonth (nextMonthOf y m).1 (nextMonthOf y m).2) =
          true) ∧
    ldtLt (firstInstantOfMonth y m)
      (firstInstantOfMonth (nextMonthOf y m).1 (nextMonthOf y m).2) = true ∧
    ldtLt (firstInstantOfMonth (nextMonthOf y m).1 (nextMonthOf y m).2)
      (firstInstantOfMonth (nextMonthOf y m).1 (nextMonthOf y m).2) = false ∧
    ldtLe (firstInstantOfMonth y m) (firstInstantOfMonth y m) = true := by
  refine ⟨?_, ?_, firstInstant_lt_next y m, ldtLt_self _, ldtLe_self _⟩
  · intro t
    exact List.mem_filter
  · intro t
    exact List.mem_filter

/-- Witness for C3: the filters at the bound 2023-12, applied to a
post dated exactly the first instant of December 2023 (which is
retained by both filters). -/
theorem month_filters_correct_witness :
    (let t : Tweet :=
      { created_at := ⟨2023, 12, 1, 0, 0, 0, 0⟩, full_text := "boundary",
        is_reply := false }
    t ∈ filter_tweet_by_start_month [t] 2023 12 ∧
      t ∈ filter_tweet_by_end_month [t] 2023 12) := by
  intro t
  have h := month_filters_correct [t] 2023 12 (by decide) (by decide)
  constructor
  · exact (h.1 t).mpr ⟨List.mem_singleton.mpr rfl, by decide⟩
  · exact (h.2.1 t).mpr ⟨List.mem_singleton.mpr rfl, by decide⟩

/-! ## Order lemmas for `cmpLDT` and `lexCmpChars` -/

theorem ordThen_lt_iff (o₁ o₂ : Ordering) :
    o₁.then o₂ = .lt ↔ o₁ = .lt ∨ (o₁ = .eq ∧ o₂ = .lt) := by
  cases o₁ <;> simp [Ordering.then]

theorem ordThen_gt_iff (o₁ o₂ : Ordering) :
    o₁.then o₂ = .gt ↔ o₁ = .gt ∨ (o₁ = .eq ∧ o₂ = .gt) := by
  cases o₁ <;> simp [Ordering.then]

theorem ordThen_eq_iff (o₁ o₂ : Ordering) :
    o₁.then o₂ = .eq ↔ o₁ = .eq ∧ o₂ = .eq := by
  cases o₁ <;> simp [Ordering.then]

theorem cmpInt_lt_iff (a b : Int) : cmpInt a b = .lt ↔ a < b := by
  rcases lt_trichotomy a b with h | h | h
  · simp [cmpInt, h]
  · subst h
    simp [cmpInt]
  · have h1 : ¬ a < b := by omega
    simp [cmpInt, h, h1]

theorem cmpInt_gt_iff (a b : Int) : cmpInt a b = .gt ↔ b < a := by
  rcases lt_trichotomy a b with h | h | h
  · have h1 : ¬ b < a := by omega
    simp [cmpInt, h, h1]
  · subst h
    simp [cmpInt]
  · have h1 : ¬ a < b := by omega
    simp [cmpInt, h, h1]

theorem cmpInt_eq_iff (a b : Int) : cmpInt a b = .eq ↔ a = b := by
  rcases lt_trichotomy a b with h | h | h
  · have h1 : a ≠ b := by omega
    simp [cmpInt, h, h1]
  · subst h
    simp [cmpInt]
  · have h1 : ¬ a < b := by omega
    have h2 : a ≠ b := by omega
    simp [cmpInt, h, h1, h2]

theorem cmpNat_lt_iff (a b : Nat) : cmpNat a b = .lt ↔ a < b := by
  rcases lt_trichotomy a b with h | h | h
  · simp [cmpNat, h]
  · subst h
    simp [cmpNat]
  · have h1 : ¬ a < b := by omega
    simp [cmpNat, h, h1]

theorem cmpNat_gt_iff (a b : Nat) : cmpNat a b = .gt ↔ b < a := by
  rcases lt_trichotomy a b with h | h | h
  · have h1 : ¬ b < a := by omega
    simp [cmpNat, h, h1]
  · subst h
    simp [cmpNat]
  · have h1 : ¬ a < b := by omega
    simp [cmpNat, h, h1]

theorem cmpNat_eq_iff (a b : Nat) : cmpNat a b = .eq ↔ a = b := by
  rcases lt_trichotomy a b with h | h | h
  · have h1 : a ≠ b := by omega
    simp [cmpNat, h, h1]
  · subst h
    simp [cmpNat]
  · have h1 : ¬ a < b := by omega
    have h2 : a ≠ b := by omega
    simp [cmpNat, h, h1, h2]

/-- Strict lexicographic order on the calendar fields, as a
proposition. -/
def ldtLtProp (a b : LocalDateTime) : Prop :=
  a.year < b.year ∨ (a.year = b.year ∧ (a.month < b.month ∨ (a.month = b.month ∧
    (a.day < b.day ∨ (a.day = b.day ∧ (a.hour < b.hour ∨ (a.hour = b.hour ∧
      (a.minute < b.minute ∨ (a.minute = b.minute ∧
        (a.second < b.second ∨ (a.second = b.second ∧
          a.millisecond < b.millisecond)))))))))))

theorem cmpLDT_lt_iff (a b : LocalDateTime) :
    cmpLDT a b = .lt ↔ ldtLtProp a b := by
  unfold cmpLDT ldtLtProp
  simp only [ordThen_lt_iff, ordThen_eq_iff, cmpInt_lt_iff, cmpInt_eq_iff,
    cmpNat_lt_iff, cmpNat_eq_iff]

theorem cmpLDT_gt_iff (a b : LocalDateTime) :
    cmpLDT a b = .gt ↔ ldtLtProp b a := by
  unfold cmpLDT ldtLtProp
  simp only [ordThen_gt_iff, ordThen_eq_iff, cmpInt_gt_iff, cmpInt_eq_iff,
    cmpNat_gt_iff, cmpNat_eq_iff]
  constructor
  · intro h
    omega
  · intro h
    omega

theorem ldtLt_iff (a b : LocalDateTime) :
    ldtLt a b = true ↔ ldtLtProp a b := by
  unfold ldtLt
  rw [show (match cmpLDT a b with
      | .lt => true
      | _ => false) = true ↔ cmpLDT a b = .lt from by
    cases h : cmpLDT a b <;> simp]
  exact cmpLDT_lt_iff a b

theorem ldtLe_iff (a b : LocalDateTime) :
    ldtLe a b = true ↔ ¬ ldtLtProp b a := by
  unfold ldtLe
  rw [show (match cmpLDT a b with
      | .gt => false
      | _ => true) = true ↔ ¬ cmpLDT a b = .gt from by
    cases h : cmpLDT a b <;> simp]
  exact not_congr (cmpLDT_gt_iff a b)

theorem ldtLt_le {a b : LocalDateTime} (h : ldtLt a b = true) :
    ldtLe a b = true := by
  rw [ldtLt_iff] at h
  rw [ldtLe_iff]
  unfold ldtLtProp at h ⊢
  omega

theorem ldtNotLt_le {a b : LocalDateTime} (h : ldtLt a b = false) :
    ldtLe b a = true := by
  rw [ldtLe_iff]
  intro hc
  rw [← ldtLt_iff] at hc
  rw [h] at hc
  exact Bool.false_ne_true hc

theorem ldtLe_trans {a b c : LocalDateTime} (h1 : ldtLe a b = true)
    (h2 : ldtLe b c = true) : ldtLe a c = true := by
  rw [ldtLe_iff] at h1 h2 ⊢
  unfold ldtLtProp at h1 h2 ⊢
  omega

theorem lexCmp_gt_iff : ∀ a b : List Char,
    lexCmpChars a b = .gt ↔ lexCmpChars b a = .lt := by
  intro a
  induction a with
  | nil =>
    intro b
    cases b <;> simp [lexCmpChars]
  | cons x xs ih =>
    intro b
    cases b with
    | nil => simp [lexCmpChars]
    | cons y ys =>
      simp only [lexCmpChars]
      rcases lt_trichotomy x y with h | h | h
      · have h1 : ¬ y < x := lt_asymm h
        simp [h, h1]
      · subst h
        have h1 : ¬ x < x := lt_irrefl x
        simp [h1, ih ys]
      · have h1 : ¬ x < y := lt_asymm h
        simp [h, h1]

theorem lexCmp_ne_gt_trans : ∀ a b c : List Char,
    lexCmpChars a b ≠ .gt → lexCmpChars b c ≠ .gt →
      lexCmpChars a c ≠ .gt := by
  intro a
  induction a with
  | nil =>
    intro b c _ _
    cases c <;> simp [lexCmpChars]
  | cons x xs ih =>
    intro b c h1 h2
    cases b with
    | nil => simp [lexCmpChars] at h1
    | cons y ys =>
      cases c with
      | nil => simp [lexCmpChars] at h2
      | cons z zs =>
        simp only [lexCmpChars] at h1 h2 ⊢
        rcases lt_trichotomy x y with hxy | hxy | hxy
        · rcases lt_trichotomy y z with hyz | hyz | hyz
          · have hxz : x < z := lt_trans hxy hyz
            simp [hxz]
          · subst hyz
            simp [hxy]
          · have hny : ¬ y < z := lt_asymm hyz
            simp [hny, hyz] at h2
        · subst hxy
          rcases lt_trichotomy x z with hxz | hxz | hxz
          · simp [hxz]
          · subst hxz
            have hx : ¬ x < x := lt_irrefl x
            simp only [if_neg hx] at h1 h2 ⊢
            exact ih ys zs h1 h2
          · have hnx : ¬ x < z := lt_asymm hxz
            simp only [if_neg hnx, if_pos hxz] at h2
            simp at h2
        · have hny : ¬ x < y := lt_asymm hxy
          simp [hny, hxy] at h1

/-! ## The text formatter (`src/templates/mod.rs`) -/

/-- The character class `[a-zA-Z0-9_]` of the `re_account` pattern. -/
def isWordChar (c : Char) : Bool :=
  c.isAlpha || c.isDigit || c = '_'

/-- The `\d` class of `re_hash_number`/`re_hash_url`, modelled by its
ASCII fragment (the regex crate's default is Unicode `Nd`; the
repository's numeric hashtags are ASCII digits). -/
def isAsciiDigit (c : Char) : Bool :=
  c.isDigit

/-- The punctuation class `[「」『』（）【】:：｜\|]` of
`re_hash_number`. -/
def isHashPunct (c : Char) : Bool :=
  c = '「' || c = '」' || c = '『' || c = '』' || c = '（' || c = '）' ||
    c = '【' || c = '】' || c = ':' || c = '：' || c = '｜' || c = '|'

/-- Rule 1 of `format_text`: `text.replace("\n", "\n  ")`. -/
def indentNewlines : List Char → List Char
  | [] => []
  | c :: rest =>
    if c = '\n' then '\n' :: ' ' :: ' ' :: indentNewlines rest
    else c :: indentNewlines rest

theorem lengthDropWhileLe (p : Char → Bool) (l : List Char) :
    (l.dropWhile p).length ≤ l.length := by
  induction l with
  | nil => simp
  | cons c rest ih =>
    rw [List.dropWhile_cons]
    split
    · exact Nat.le_succ_of_le ih
    · simp

/-- Rule 2 of `format_text`: `re_account.replace_all(text, "[[@$1]]")`,
i.e. every leftmost maximal `@handle` becomes `[[@handle]]`. -/
def replaceAccount : List Char → List Char
  | [] => []
  | c :: rest =>
    if c = '@' then
      if (rest.takeWhile isWordChar).isEmpty then '@' :: replaceAccount rest
      else
        '[' :: '[' :: '@' ::
          (rest.takeWhile isWordChar ++
            ']' :: ']' :: replaceAccount (rest.dropWhile isWordChar))
    else c :: replaceAccount rest
termination_by l => l.length
decreasing_by
  all_goals simp_wf
  all_goals have := lengthDropWhileLe isWordChar rest
  all_goals omega

/-- Rule 3 of `format_text`:
`re_hash_number.replace_all(text, "#$1 $2")`, inserting a space between
a `#digits` run and a following punctuation run. -/
def replaceHashNumber : List Char → List Char
  | [] => []
  | c :: rest =>
    if c = '#' then
      if (rest.takeWhile isAsciiDigit).isEmpty ||
          ((rest.dropWhile isAsciiDigit).takeWhile isHashPunct).isEmpty then
        '#' :: replaceHashNumber rest
      else
        '#' ::
          (rest.takeWhile isAsciiDigit ++ ' ' ::
            ((rest.dropWhile isAsciiDigit).takeWhile isHashPunct ++
              replaceHashNumber
                ((rest.dropWhile isAsciiDigit).dropWhile isHashPunct)))
    else c :: replaceHashNumber rest
termination_by l => l.length
decreasing_by
  all_goals simp_wf
  all_goals have h1 := lengthDropWhileLe isAsciiDigit rest
  all_goals have h2 := lengthDropWhileLe isHashPunct (List.dropWhile isAsciiDigit rest)
  all_goals omega

/-- Rule 4 of `format_text`: `re_hash_url.replace_all(text, "#$1 http")`,
inserting a space between a `#digits` run and an immediately following
literal `http`. -/
def replaceHashUrl : List Char → List Char
  | [] => []
  | c :: rest =>
    if c = '#' then
      if (rest.takeWhile isAsciiDigit).isEmpty ||
          !startsWithChars ['h', 't', 't', 'p']
            (rest.dropWhile isAsciiDigit) then
        '#' :: replaceHashUrl rest
      else
        '#' ::
          (rest.takeWhile isAsciiDigit ++ ' ' :: 'h' :: 't' :: 't' :: 'p' ::
            replaceHashUrl ((rest.dropWhile isAsciiDigit).drop 4))
    else c :: replaceHashUrl rest
termination_by l => l.length
decreasing_by
  all_goals simp_wf
  all_goals have h1 := lengthDropWhileLe isAsciiDigit rest
  all_goals omega

/-- `Formatter::format_text` on character sequences: rule 1, then
rules 2, 3, 4 in the source order. -/
def formatTextChars (l : List Char) : List Char :=
  replaceHashUrl (replaceHashNumber (replaceAccount (indentNewlines l)))

/-- `Formatter::format_text` on strings. -/
def Formatter.format_text (s : String) : String :=
  ⟨formatTextChars s.data⟩

/-! ## The monthly template input (`src/templates/monthly_tweets.rs`) -/

/-- `format_file_created_at`: chrono's `%Y-%m-%d %H:%M:%S`. -/
def formatFileCreatedAt (d : LocalDateTime) : String :=
  pad4Int d.year ++ "-" ++ pad2 d.month ++ "-" ++ pad2 d.day ++ " " ++
    pad2 d.hour ++ ":" ++ pad2 d.minute ++ ":" ++ pad2 d.second

/-- `format_id`: chrono's `%Y%m%d%H%M%S%3f` (millisecond-padded). -/
def formatId (d : LocalDateTime) : String :=
  pad4Int d.year ++ pad2 d.month ++ pad2 d.day ++ pad2 d.hour ++
    pad2 d.minute ++ pad2 d.second ++ pad3 d.millisecond

/-- The embedding of `struct FormattedTweet` (the body is kept as a
character sequence). -/
structure FormattedTweet where
  created_at : String
  text : List Char
deriving DecidableEq, Repr

/-- The comparison used by `format_tweets`'s
`sort_by(|a, b| a.created_at.cmp(&b.created_at))`, as a ≤-test. -/
def fmtLe (a b : FormattedTweet) : Bool :=
  match lexCmpChars a.created_at.data b.created_at.data with
  | .gt => false
  | _ => true

/-- `MonthlyTweetsTemplateInput::format_tweets`: map each tweet to its
formatted form, then stable-sort ascending by the formatted timestamp
string. -/
def formatTweets (ts : List Tweet) : List FormattedTweet :=
  (ts.map fun t =>
    ({ created_at := formatFileCreatedAt t.created_at,
       text := formatTextChars t.full_text.data } : FormattedTweet)).mergeSort
    fmtLe

/-- The fold computing `min_by` over created-at values
(`Iterator::min_by` keeps the first of equally minimal elements, which
the strict-less test reproduces). -/
def foldMinLDT (rest : List Tweet) (a : LocalDateTime) : LocalDateTime :=
  rest.foldl
    (fun acc u => if ldtLt u.created_at acc then u.created_at else acc) a

/-- `extract_earliest_tweet_created_at`; the `unwrap` panic on an empty
group is the `none` case. -/
def extract_earliest_tweet_created_at (ts : List Tweet) :
    Option LocalDateTime :=
  match ts with
  | [] => none
  | t :: rest => some (foldMinLDT rest t.created_at)

/-- The embedding of `struct MonthlyTweetsTemplateInput`. -/
structure MonthlyTweetsTemplateInput where
  id : String
  file_created_at : String
  month : String
  year : String
  stats : ActivityStats
  tweets : List FormattedTweet
deriving DecidableEq, Repr

/-- `MonthlyTweetsTemplateInput::new`.  The outer `Option` carries the
`unwrap` panic on an empty group; the function body has no error path,
so a `some` result is always `Except.ok`. -/
def MonthlyTweetsTemplateInput.new (ts : List Tweet) :
    Option (Except String MonthlyTweetsTemplateInput) :=
  match extract_earliest_tweet_created_at ts with
  | none => none
  | some e =>
    some (.ok
      { id := formatId e
        file_created_at := formatFileCreatedAt e
        month := pad2 e.month
        year := toString e.year
        stats := generateActivityStats ts
        tweets := formatTweets ts })

theorem foldMinLDT_spec (rest : List Tweet) :
    ∀ a : LocalDateTime,
      (foldMinLDT rest a = a ∨
        ∃ u ∈ rest, foldMinLDT rest a = u.created_at) ∧
      ldtLe (foldMinLDT rest a) a = true ∧
      ∀ u ∈ rest, ldtLe (foldMinLDT rest a) u.created_at = true := by
  induction rest with
  | nil =>
    intro a
    exact ⟨Or.inl rfl, ldtLe_self a, by simp⟩
  | cons t rs ih =>
    intro a
    have hstep : foldMinLDT (t :: rs) a =
        foldMinLDT rs (if ldtLt t.created_at a then t.created_at else a) :=
      rfl
    by_cases hlt : ldtLt t.created_at a = true
    · rw [hstep, if_pos hlt]
      obtain ⟨ha, hle, hall⟩ := ih t.created_at
      refine ⟨?_, ?_, ?_⟩
      · rcases ha with ha | ⟨u, hu, hau⟩
        · exact Or.inr ⟨t, List.mem_cons_self _ _, ha⟩
        · exact Or.inr ⟨u, List.mem_cons_of_mem _ hu, hau⟩
      · exact ldtLe_trans hle (ldtLt_le hlt)
      · intro u hu
        rcases List.mem_cons.mp hu with hu | hu
        · subst hu
          exact hle
        · exact hall u hu
    · have hlt' : ldtLt t.created_at a = false := by
        revert hlt
        cases h : ldtLt t.created_at a <;> simp
      rw [hstep, if_neg (by simp [hlt'])]
      obtain ⟨ha, hle, hall⟩ := ih a
      refine ⟨?_, hle, ?_⟩
      · rcases ha with ha | ⟨u, hu, hau⟩
        · exact Or.inl ha
        · exact Or.inr ⟨u, List.mem_cons_of_mem _ hu, hau⟩
      · intro u hu
        rcases List.mem_cons.mp hu with hu | hu
        · subst hu
          exact ldtLe_trans hle (ldtNotLt_le hlt')
        · exact hall u hu

theorem fmtLe_eq_true_iff (a b : FormattedTweet) :
    fmtLe a b = true ↔
      lexCmpChars a.created_at.data b.created_at.data ≠ .gt := by
  unfold fmtLe
  cases h : lexCmpChars a.created_at.data b.created_at.data <;> simp [h]

theorem fmtLe_trans (a b c : FormattedTweet) (h1 : fmtLe a b = true)
    (h2 : fmtLe b c = true) : fmtLe a c = true := by
  rw [fmtLe_eq_true_iff] at h1 h2 ⊢
  exact lexCmp_ne_gt_trans _ _ _ h1 h2

theorem fmtLe_total (a b : FormattedTweet) : (fmtLe a b || fmtLe b a) = true := by
  cases h : fmtLe a b with
  | true => rfl
  | false =>
    have hgt : lexCmpChars a.created_at.data b.created_at.data = .gt := by
      revert h
      unfold fmtLe
      cases h2 : lexCmpChars a.created_at.data b.created_at.data <;> simp
    have hlt := (lexCmp_gt_iff _ _).mp hgt
    have : fmtLe b a = true := by
      unfold fmtLe
      rw [hlt]
    rw [this]
    rfl

/-! ### Claims C7 and C10 -/

/-- **C7.** For every non-empty group, the constructed render input
takes its id (`YYYYMMDDHHMMSSmmm` via `formatId`), file-created-at,
year and zero-padded month from the group's earliest post by local
creation time, and its tweet list is a permutation of the formatted
posts, sorted ascending by the lexicographic order of the formatted
timestamp strings. -/
theorem templateInput_new_fields (ts : List Tweet) (h : ts ≠ []) :
    ∃ inp, MonthlyTweetsTemplateInput.new ts = some (Except.ok inp) ∧
      (∃ t ∈ ts, (∀ u ∈ ts, ldtLe t.created_at u.created_at = true) ∧
        inp.id = formatId t.created_at ∧
        inp.file_created_at = formatFileCreatedAt t.created_at ∧
        inp.year = toString t.created_at.year ∧
        inp.month = pad2 t.created_at.month) ∧
      inp.tweets.Perm (ts.map fun t =>
        ({ created_at := formatFileCreatedAt t.created_at,
           text := formatTextChars t.full_text.data } : FormattedTweet)) ∧
      List.Pairwise (fun a b => fmtLe a b = true) inp.tweets := by
  cases ts with
  | nil => exact absurd rfl h
  | cons t rest =>
    refine ⟨_, rfl, ?_, ?_, ?_⟩
    · obtain ⟨hatt, hle, hall⟩ := foldMinLDT_spec rest t.created_at
      have hmin : ∀ u ∈ t :: rest,
          ldtLe (foldMinLDT rest t.created_at) u.created_at = true := by
        intro u hu
        rcases List.mem_cons.mp hu with hu | hu
        · subst hu
          exact hle
        · exact hall u hu
      rcases hatt with hatt | ⟨u, hu, hau⟩
      · exact ⟨t, List.mem_cons_self _ _, by rw [hatt] at hmin ⊢; exact
          ⟨hmin, rfl, rfl, rfl, rfl⟩⟩
      · exact ⟨u, List.mem_cons_of_mem _ hu, by rw [hau] at hmin ⊢; exact
          ⟨hmin, rfl, rfl, rfl, rfl⟩⟩
    · exact List.mergeSort_perm _ fmtLe
    · exact List.sorted_mergeSort fmtLe_trans fmtLe_total _

/-- Witness for C7: the theorem applied to the concrete example group. -/
theorem templateInput_new_fields_witness :
    ∃ inp, MonthlyTweetsTemplateInput.new exampleGroupC1 =
      some (Except.ok inp) ∧ inp.month = "03" := by
  obtain ⟨inp, heq, ⟨t, ht, hmin, hid, hfc, hyr, hmo⟩, hperm, hsort⟩ :=
    templateInput_new_fields exampleGroupC1 (by simp [exampleGroupC1])
  refine ⟨inp, heq, ?_⟩
  rw [hmo]
  have hm3 : t.created_at.month = 3 := by
    fin_cases ht <;> rfl
  rw [hm3]
  rfl

/-- **C10.** `MonthlyTweetsTemplateInput::new` never returns an `Err`
value: on a non-empty group it returns `Ok`, on the empty group it
panics (the `unwrap` of the earliest-post minimum, embedded as `none`),
so `main`'s per-month branch that skips a month when render-input
construction returns an error is unreachable. -/
theorem templateInput_new_never_err (ts : List Tweet) :
    (ts ≠ [] → ∃ x, MonthlyTweetsTemplateInput.new ts = some (Except.ok x)) ∧
    MonthlyTweetsTemplateInput.new [] = none ∧
    (∀ e : String, MonthlyTweetsTemplateInput.new ts ≠ some (Except.error e)) := by
  refine ⟨?_, rfl, ?_⟩
  · intro h
    cases ts with
    | nil => exact absurd rfl h
    | cons t rest => exact ⟨_, rfl⟩
  · intro e
    cases ts with
    | nil => simp [MonthlyTweetsTemplateInput.new, extract_earliest_tweet_created_at]
    | cons t rest =>
      simp [MonthlyTweetsTemplateInput.new, extract_earliest_tweet_created_at]

/-- Witness for C10: the theorem applied to the concrete example
group. -/
theorem templateInput_new_never_err_witness :
    (∃ x, MonthlyTweetsTemplateInput.new exampleGroupC1 =
      some (Except.ok x)) ∧
    MonthlyTweetsTemplateInput.new [] = none := by
  have h := templateInput_new_never_err exampleGroupC1
  exact ⟨h.1 (by simp [exampleGroupC1]), h.2.1⟩

/-! ## Timestamp parsing (`src/tweet.rs`) -/

/-- Split a character sequence at a separator character (used for the
space-separated timestamp fields and the `:`-separated time). -/
def splitChAux (sep : Char) : List Char → List Char → List (List Char)
  | [], acc => [acc.reverse]
  | c :: rest, acc =>
    if c = sep then acc.reverse :: splitChAux sep rest []
    else splitChAux sep rest (c :: acc)

/-- Split on a separator character. -/
def splitCh (sep : Char) (l : List Char) : List (List Char) :=
  splitChAux sep l []

/-- Accumulate a decimal number from digit characters. -/
def parseDigitsAux : List Char → Nat → Option Nat
  | [], acc => some acc
  | c :: rest, acc =>
    if c.isDigit then parseDigitsAux rest (acc * 10 + (c.toNat - 48))
    else none

/-- Parse exactly `n` decimal digits. -/
def parseFixedDigits (n : Nat) (l : List Char) : Option Nat :=
  if l.length = n then parseDigitsAux l 0 else none

/-- Abbreviated month names accepted by chrono's `%b`. -/
def monthNum (s : List Char) : Option Nat :=
  if s = "Jan".data then some 1 else if s = "Feb".data then some 2
  else if s = "Mar".data then some 3 else if s = "Apr".data then some 4
  else if s = "May".data then some 5 else if s = "Jun".data then some 6
  else if s = "Jul".data then some 7 else if s = "Aug".data then some 8
  else if s = "Sep".data then some 9 else if s = "Oct".data then some 10
  else if s = "Nov".data then some 11 else if s = "Dec".data then some 12
  else none

/-- Abbreviated weekday names accepted by chrono's `%a` (Sunday = 0). -/
def weekdayNum (s : List Char) : Option Nat :=
  if s = "Sun".data then some 0 else if s = "Mon".data then some 1
  else if s = "Tue".data then some 2 else if s = "Wed".data then some 3
  else if s = "Thu".data then some 4 else if s = "Fri".data then some 5
  else if s = "Sat".data then some 6 else none

/-- Gregorian leap-year test. -/
def isLeapYear (y : Int) : Bool :=
  (y % 4 = 0 && y % 100 ≠ 0) || y % 400 = 0

/-- Days in a calendar month. -/
def daysInMonth (y : Int) (m : Nat) : Nat :=
  if m = 2 then (if isLeapYear y then 29 else 28)
  else if m = 4 || m = 6 || m = 9 || m = 11 then 30
  else 31

/-- Sakamoto's day-of-week table. -/
def sakamotoTable : List Nat := [0, 3, 2, 5, 0, 3, 5, 1, 4, 6, 2, 4]

/-- Day of week of a calendar date, 0 = Sunday (chrono validates the
parsed `%a` weekday against the date). -/
def dayOfWeek (y : Int) (m d : Nat) : Int :=
  let yy : Int := if m < 3 then y - 1 else y
  (yy + yy / 4 - yy / 100 + yy / 400 +
    (sakamotoTable.getD (m - 1) 0 : Int) + (d : Int)) % 7

/-- Successor calendar day. -/
def nextDay (y : Int) (m d : Nat) : Int × Nat × Nat :=
  if d < daysInMonth y m then (y, m, d + 1)
  else if m < 12 then (y, m + 1, 1)
  else (y + 1, 1, 1)

/-- Predecessor calendar day. -/
def prevDay (y : Int) (m d : Nat) : Int × Nat × Nat :=
  if 1 < d then (y, m, d - 1)
  else if 1 < m then (y, m - 1, daysInMonth y (m - 1))
  else (y - 1, 12, 31)

/-- Shift a calendar date-time (`sod` = seconds of day) by `delta`
seconds with `|delta| ≤ 86400`: chrono's instant arithmetic viewed on
the calendar, sufficient for time-zone offsets, which are sub-day. -/
def shiftCalendar (y : Int) (m d : Nat) (sod : Nat) (delta : Int) :
    Int × Nat × Nat × Nat :=
  let t : Int := (sod : Int) + delta
  if t < 0 then
    let p := prevDay y m d
    (p.1, p.2.1, p.2.2, (t + 86400).toNat)
  else if 86400 ≤ t then
    let p := nextDay y m d
    (p.1, p.2.1, p.2.2, (t - 86400).toNat)
  else (y, m, d, t.toNat)

/-- A calendar date-time in UTC, the embedding of chrono's
`DateTime<Utc>`. -/
structure UtcDateTime where
  year : Int
  month : Nat
  day : Nat
  hour : Nat
  minute : Nat
  second : Nat
deriving DecidableEq, Repr

/-- View a shifted `(year, month, day, seconds-of-day)` quadruple as a
UTC calendar date-time. -/
def mkUtcOf (q : Int × Nat × Nat × Nat) : UtcDateTime :=
  { year := q.1, month := q.2.1, day := q.2.2.1, hour := q.2.2.2 / 3600,
    minute := q.2.2.2 % 3600 / 60, second := q.2.2.2 % 60 }

/-- The `HH:MM:SS` fields of `%H:%M:%S` (two digits each; range checks
are collected in `parseTwitterFields`). -/
def parseTimeRaw (s : List Char) : Option (Nat × Nat × Nat) :=
  match splitCh ':' s with
  | [a, b, c] =>
    match parseFixedDigits 2 a, parseFixedDigits 2 b,
        parseFixedDigits 2 c with
    | some hh, some mm, some ss => some (hh, mm, ss)
    | _, _, _ => none
  | _ => none

/-- The `%z` offset `±HHMM`, in minutes (chrono rejects a minute field
of 60 or more while scanning; the overall offset bound is collected in
`parseTwitterFields`). -/
def parseOffsetRaw (s : List Char) : Option Int :=
  match s with
  | sign :: rest =>
    match parseFixedDigits 2 (rest.take 2), parseFixedDigits 2 (rest.drop 2) with
    | some oh, some om =>
      if rest.length = 4 && om ≤ 59 then
        if sign = '+' then some ((oh : Int) * 60 + (om : Int))
        else if sign = '-' then some (-((oh : Int) * 60 + (om : Int)))
        else none
      else none
    | _, _ => none
  | [] => none

/-- The field parser behind `parse_twitter_date`: chrono's
`parse_from_str(date, "%a %b %d %H:%M:%S %z %Y")` on the fixed source
format (single spaces, abbreviated capitalized names, two-digit day and
time fields, sign plus four-digit offset, four-digit year — the shape
of Twitter archive timestamps).  All of chrono's validity checks —
day within the month, time-of-day in range, offset within ±24h, and
the parsed weekday agreeing with the date — are collected in the final
condition.  Result: `(year, month, day, hour, minute, second,
offset-minutes)`. -/
def twitterFieldsRaw (s : String) :
    Option (Int × Nat × Nat × Nat × Nat × Nat × Int × Nat) :=
  match splitCh ' ' s.data with
  | [wd, mon, dd, time, off, yr] =>
    match weekdayNum wd, monthNum mon, parseFixedDigits 2 dd,
        parseTimeRaw time, parseOffsetRaw off, parseFixedDigits 4 yr with
    | some w, some m, some d, some hms, some om, some y =>
      some ((y : Int), m, d, hms.1, hms.2.1, hms.2.2, om, w)
    | _, _, _, _, _, _ => none
  | _ => none

def parseTwitterFields (s : String) :
    Option (Int × Nat × Nat × Nat × Nat × Nat × Int) :=
  match twitterFieldsRaw s with
  | some (y, m, d, hh, mm, ss, om, w) =>
    if 1 ≤ d ∧ d ≤ daysInMonth y m ∧ hh ≤ 23 ∧ mm ≤ 59 ∧ ss ≤ 59 ∧
        -1439 ≤ om ∧ om ≤ 1439 ∧ dayOfWeek y m d = (w : Int) then
      some (y, m, d, hh, mm, ss, om)
    else none
  | none => none

/-- The embedding of `parse_twitter_date`: parse the offset-aware
timestamp and convert it to UTC by subtracting the offset. -/
def parse_twitter_date (s : String) : Option UtcDateTime :=
  match parseTwitterFields s with
  | some (y, m, d, hh, mm, ss, om) =>
    some (mkUtcOf (shiftCalendar y m d (hh * 3600 + mm * 60 + ss)
      (-(om * 60))))
  | none => none

/-- `with_timezone(&Local)` for a fixed-offset local zone `off` minutes
east of UTC (`|off| < 1440`): shift the UTC calendar time by the
offset. -/
def toLocal (u : UtcDateTime) (off : Int) : LocalDateTime :=
  let q := shiftCalendar u.year u.month u.day
    (u.hour * 3600 + u.minute * 60 + u.second) (off * 60)
  { year := q.1, month := q.2.1, day := q.2.2.1, hour := q.2.2.2 / 3600,
    minute := q.2.2.2 % 3600 / 60, second := q.2.2.2 % 60,
    millisecond := 0 }

/-- `Tweet::new`: parse the timestamp, convert to the local zone, or
propagate chrono's parse error. -/
def Tweet.new (off : Int) (created_at full_text : String)
    (isReply : Bool) : Except String Tweet :=
  match parse_twitter_date created_at with
  | some u =>
    .ok { created_at := toLocal u off, full_text := full_text,
          is_reply := isReply }
  | none => .error ("failed to parse date: " ++ created_at)

/-- One element of the archive's JSON array after `serde_json`
decoding: `tw["tweet"]["created_at"].as_str()` and
`tw["tweet"]["full_text"].as_str()` (`none` when the field is missing
or not a string), and whether `tw["tweet"]["in_reply_to_user_id"]` is
non-null. -/
structure RawTweetRecord where
  created_at : Option String
  full_text : Option String
  reply_target_non_null : Bool
deriving DecidableEq, Repr

/-- The embedding of `parse_tweets`'s record loop: records are
processed in source order, and `collect::<Result<_>>` stops at the
first failure.  A missing/non-string field is an `unwrap` panic (the
outer `none`); an unparsable timestamp is the batch `Err`. -/
def parse_tweets (off : Int) : List RawTweetRecord →
    Option (Except String (List Tweet))
  | [] => some (.ok [])
  | r :: rest =>
    match r.created_at, r.full_text with
    | some ca, some ft =>
      match Tweet.new off ca ft r.reply_target_non_null with
      | .error e => some (.error e)
      | .ok t =>
        match parse_tweets off rest with
        | none => none
        | some (.error e) => some (.error e)
        | some (.ok ts) => some (.ok (t :: ts))
    | _, _ => none

/-- A record is well-formed when both strings are present and the
timestamp parses. -/
def recordOk (r : RawTweetRecord) : Bool :=
  match r.created_at, r.full_text with
  | some ca, some _ => (parse_twitter_date ca).isSome
  | _, _ => false

/-! ### Claims C5 and C6 -/

theorem parseTwitterFields_ranges (s : String) (y : Int)
    (m d hh mm ss : Nat) (om : Int)
    (h : parseTwitterFields s = some (y, m, d, hh, mm, ss, om)) :
    1 ≤ d ∧ d ≤ daysInMonth y m ∧ hh ≤ 23 ∧ mm ≤ 59 ∧ ss ≤ 59 ∧
      -1439 ≤ om ∧ om ≤ 1439 := by
  unfold parseTwitterFields at h
  cases hr : twitterFieldsRaw s with
  | none =>
    rw [hr] at h
    exact absurd h (by simp)
  | some t =>
    rw [hr] at h
    obtain ⟨y', m', d', hh', mm', ss', om', w'⟩ := t
    obtain ⟨hc, e1, e2, e3, e4, e5, e6, e7⟩ :
        (1 ≤ d' ∧ d' ≤ daysInMonth y' m' ∧ hh' ≤ 23 ∧ mm' ≤ 59 ∧
          ss' ≤ 59 ∧ -1439 ≤ om' ∧ om' ≤ 1439 ∧
          dayOfWeek y' m' d' = (w' : Int)) ∧
        y' = y ∧ m' = m ∧ d' = d ∧ hh' = hh ∧ mm' = mm ∧ ss' = ss ∧
          om' = om := by
      simpa using h
    subst e1
    subst e2
    subst e3
    subst e4
    subst e5
    subst e6
    subst e7
    exact ⟨hc.1, hc.2.1, hc.2.2.1, hc.2.2.2.1, hc.2.2.2.2.1,
      hc.2.2.2.2.2.1, hc.2.2.2.2.2.2.1⟩

theorem shiftCalendar_sod_lt (y : Int) (m d : Nat) (sod : Nat)
    (delta : Int) (hs : sod < 86400) (h1 : -86400 ≤ delta)
    (h2 : delta ≤ 86400) :
    (shiftCalendar y m d sod delta).2.2.2 < 86400 := by
  simp only [shiftCalendar]
  split
  · dsimp only
    omega
  · split
    · dsimp only
      omega
    · dsimp only
      omega

theorem shiftCalendar_zero (y : Int) (m d : Nat) (sod : Nat)
    (hs : sod < 86400) : shiftCalendar y m d sod 0 = (y, m, d, sod) := by
  simp only [shiftCalendar]
  split
  · exfalso
    omega
  · split
    · exfalso
      omega
    · have ht : ((sod : Int) + 0).toNat = sod := by omega
      rw [ht]

theorem parse_twitter_date_ranges (s : String) (u : UtcDateTime)
    (h : parse_twitter_date s = some u) :
    u.hour ≤ 23 ∧ u.minute ≤ 59 ∧ u.second ≤ 59 := by
  unfold parse_twitter_date at h
  cases hf : parseTwitterFields s with
  | none =>
    rw [hf] at h
    exact absurd h (by simp)
  | some t =>
    rw [hf] at h
    obtain ⟨y, m, d, hh, mm, ss, om⟩ := t
    obtain ⟨r1, r2, r3, r4, r5, r6, r7⟩ :=
      parseTwitterFields_ranges s y m d hh mm ss om hf
    have hu : u = mkUtcOf (shiftCalendar y m d (hh * 3600 + mm * 60 + ss)
        (-(om * 60))) := by
      simpa using h.symm
    have hsod := shiftCalendar_sod_lt y m d (hh * 3600 + mm * 60 + ss)
      (-(om * 60)) (by omega) (by omega) (by omega)
    rw [hu]
    unfold mkUtcOf
    dsimp only
    refine ⟨by omega, by omega, by omega⟩

/-- **C6.** A parsed timestamp is an offset-aware instant converted to
UTC; viewing it in a zero-offset local zone leaves the calendar fields
unchanged, and formatting then yields the canonical zero-padded
`YYYY-MM-DD HH:MM:SS` string of those fields.  In particular
`"Sat Mar 11 04:12:48 +0000 2023"` parses to the UTC instant
2023-03-11T04:12:48Z, and viewing that instant at offset +09:00 gives
13:12:48 local. -/
theorem parse_twitter_date_roundtrip (s : String) (u : UtcDateTime)
    (h : parse_twitter_date s = some u) :
    toLocal u 0 = ⟨u.year, u.month, u.day, u.hour, u.minute, u.second, 0⟩ ∧
    formatFileCreatedAt (toLocal u 0) =
      pad4Int u.year ++ "-" ++ pad2 u.month ++ "-" ++ pad2 u.day ++ " " ++
        pad2 u.hour ++ ":" ++ pad2 u.minute ++ ":" ++ pad2 u.second ∧
    parse_twitter_date "Sat Mar 11 04:12:48 +0000 2023" =
      some ⟨2023, 3, 11, 4, 12, 48⟩ ∧
    toLocal ⟨2023, 3, 11, 4, 12, 48⟩ 540 = ⟨2023, 3, 11, 13, 12, 48, 0⟩ := by
  obtain ⟨hr1, hr2, hr3⟩ := parse_twitter_date_ranges s u h
  have hsod : u.hour * 3600 + u.minute * 60 + u.second < 86400 := by omega
  have hloc : toLocal u 0 =
      ⟨u.year, u.month, u.day, u.hour, u.minute, u.second, 0⟩ := by
    simp only [toLocal, zero_mul]
    rw [shiftCalendar_zero u.year u.month u.day _ hsod]
    have e1 : (u.hour * 3600 + u.minute * 60 + u.second) / 3600 = u.hour := by
      omega
    have e2 : (u.hour * 3600 + u.minute * 60 + u.second) % 3600 / 60 =
        u.minute := by
      omega
    have e3 : (u.hour * 3600 + u.minute * 60 + u.second) % 60 = u.second := by
      omega
    simp only []
    rw [e1, e2, e3]
  refine ⟨hloc, ?_, by rfl, by rfl⟩
  rw [hloc]
  rfl

/-- Witness for C6: the theorem applied at the documented example. -/
theorem parse_twitter_date_roundtrip_witness :
    parse_twitter_date "Sat Mar 11 04:12:48 +0000 2023" =
      some ⟨2023, 3, 11, 4, 12, 48⟩ ∧
    formatFileCreatedAt (toLocal ⟨2023, 3, 11, 4, 12, 48⟩ 0) =
      "2023-03-11 04:12:48" := by
  have h := parse_twitter_date_roundtrip "Sat Mar 11 04:12:48 +0000 2023"
    ⟨2023, 3, 11, 4, 12, 48⟩ (by rfl)
  refine ⟨h.2.2.1, ?_⟩
  rw [h.1]
  rfl

/-- **C5.** Batch parsing is fail-fast: if any record lacks the
timestamp or body string or its timestamp does not parse, the whole
batch yields a fatal outcome (an `unwrap` panic or the batch `Err`) and
no partial list of tweets; if every record is well-formed, the complete
list is returned, in source order, each tweet built by `Tweet::new`
from its record. -/
theorem parse_tweets_fail_fast (off : Int) (rs : List RawTweetRecord) :
    ((∃ r ∈ rs, recordOk r = false) →
      parse_tweets off rs = none ∨
        ∃ e, parse_tweets off rs = some (.error e)) ∧
    ((∀ r ∈ rs, recordOk r = true) →
      ∃ ts, parse_tweets off rs = some (.ok ts) ∧
        List.Forall₂
          (fun r t => ∃ ca ft, r.created_at = some ca ∧
            r.full_text = some ft ∧
            Tweet.new off ca ft r.reply_target_non_null = Except.ok t)
          rs ts) := by
  induction rs with
  | nil =>
    constructor
    · rintro ⟨r, hr, _⟩
      exact absurd hr (List.not_mem_nil r)
    · intro _
      exact ⟨[], rfl, List.Forall₂.nil⟩
  | cons r rest ih =>
    constructor
    · rintro ⟨rb, hrb, hbad⟩
      rcases List.mem_cons.mp hrb with heq | hmem
      · subst heq
        clear hrb
        obtain ⟨rca, rft, rrep⟩ := rb
        cases rca with
        | none => exact Or.inl (by simp [parse_tweets])
        | some ca =>
          cases rft with
          | none => exact Or.inl (by simp [parse_tweets])
          | some ft =>
            have hpd : parse_twitter_date ca = none := by
              simp only [recordOk] at hbad
              cases hp : parse_twitter_date ca
              · rfl
              · rw [hp] at hbad
                simp at hbad
            exact Or.inr ⟨"failed to parse date: " ++ ca,
              by simp [parse_tweets, Tweet.new, hpd]⟩
      · clear hrb
        obtain ⟨rca, rft, rrep⟩ := r
        cases rca with
        | none => exact Or.inl (by simp [parse_tweets])
        | some ca =>
          cases rft with
          | none => exact Or.inl (by simp [parse_tweets])
          | some ft =>
            cases htw : Tweet.new off ca ft rrep with
            | error e => exact Or.inr ⟨e, by simp [parse_tweets, htw]⟩
            | ok t =>
              rcases ih.1 ⟨rb, hmem, hbad⟩ with hrest | ⟨e, hrest⟩
              · exact Or.inl (by simp [parse_tweets, htw, hrest])
              · exact Or.inr ⟨e, by simp [parse_tweets, htw, hrest]⟩
    · intro hall
      have hr := hall r (List.mem_cons_self r rest)
      obtain ⟨rca, rft, rrep⟩ := r
      cases rca with
      | none => simp [recordOk] at hr
      | some ca =>
        cases rft with
        | none => simp [recordOk] at hr
        | some ft =>
          simp only [recordOk] at hr
          obtain ⟨u, hu⟩ := Option.isSome_iff_exists.mp hr
          obtain ⟨ts, hts, hfa⟩ :=
            ih.2 (fun q hq => hall q (List.mem_cons_of_mem _ hq))
          refine ⟨Tweet.mk (toLocal u off) ft rrep :: ts, ?_, ?_⟩
          · simp [parse_tweets, Tweet.new, hu, hts]
          · exact List.Forall₂.cons ⟨ca, ft, rfl, rfl,
              by simp [Tweet.new, hu]⟩ hfa

/-- A well-formed archive record. -/
def goodRecord : RawTweetRecord :=
  { created_at := some "Sat Mar 11 04:12:48 +0000 2023",
    full_text := some "hello world", reply_target_non_null := false }

/-- A record whose timestamp does not parse. -/
def badRecord : RawTweetRecord :=
  { created_at := some "not a timestamp", full_text := some "hello",
    reply_target_non_null := false }

/-- Witness for C5: a malformed singleton batch is fatal, a well-formed
singleton batch parses completely. -/
theorem parse_tweets_fail_fast_witness :
    (parse_tweets 0 [badRecord] = none ∨
      ∃ e, parse_tweets 0 [badRecord] = some (.error e)) ∧
    ∃ ts, parse_tweets 0 [goodRecord] = some (.ok ts) ∧
      List.Forall₂
        (fun r t => ∃ ca ft, r.created_at = some ca ∧
          r.full_text = some ft ∧
          Tweet.new 0 ca ft r.reply_target_non_null = Except.ok t)
        [goodRecord] ts := by
  constructor
  · exact (parse_tweets_fail_fast 0 [badRecord]).1
      ⟨badRecord, List.mem_singleton.mpr rfl, by rfl⟩
  · refine (parse_tweets_fail_fast 0 [goodRecord]).2 ?_
    intro q hq
    rw [List.mem_singleton] at hq
    subst hq
    rfl

/-! ## Formatter analysis: matchers, step lemmas and toolkit -/

/-- Does `re_account` (`@[a-zA-Z0-9_]+`) match anywhere in the text? -/
def hasAccountMatch : List Char → Bool
  | [] => false
  | c :: rest =>
    if c = '@' then
      if (rest.takeWhile isWordChar).isEmpty then hasAccountMatch rest
      else true
    else hasAccountMatch rest

/-- Does `re_hash_number` (`#\d+` followed by the punctuation class)
match anywhere in the text? -/
def hasHashNumberMatch : List Char → Bool
  | [] => false
  | c :: rest =>
    if c = '#' then
      if (rest.takeWhile isAsciiDigit).isEmpty ||
          ((rest.dropWhile isAsciiDigit).takeWhile isHashPunct).isEmpty then
        hasHashNumberMatch rest
      else true
    else hasHashNumberMatch rest

/-- Does `re_hash_url` (`#\d+http`) match anywhere in the text? -/
def hasHashUrlMatch : List Char → Bool
  | [] => false
  | c :: rest =>
    if c = '#' then
      if (rest.takeWhile isAsciiDigit).isEmpty ||
          !startsWithChars ['h', 't', 't', 'p']
            (rest.dropWhile isAsciiDigit) then
        hasHashUrlMatch rest
      else true
    else hasHashUrlMatch rest

theorem replaceAccount_nil : replaceAccount [] = [] := by
  rw [replaceAccount]

theorem replaceAccount_cons_ne (c : Char) (rest : List Char)
    (hc : c ≠ '@') :
    replaceAccount (c :: rest) = c :: replaceAccount rest := by
  rw [replaceAccount]
  simp [hc]

theorem replaceAccount_at_empty (rest : List Char)
    (hw : (rest.takeWhile isWordChar).isEmpty = true) :
    replaceAccount ('@' :: rest) = '@' :: replaceAccount rest := by
  rw [replaceAccount]
  simp [hw]

theorem replaceAccount_at_match (rest : List Char)
    (hw : (rest.takeWhile isWordChar).isEmpty = false) :
    replaceAccount ('@' :: rest) =
      '[' :: '[' :: '@' :: (rest.takeWhile isWordChar ++
        ']' :: ']' :: replaceAccount (rest.dropWhile isWordChar)) := by
  rw [replaceAccount]
  simp [hw]

theorem replaceHashNumber_nil : replaceHashNumber [] = [] := by
  rw [replaceHashNumber]

theorem replaceHashNumber_cons_ne (c : Char) (rest : List Char)
    (hc : c ≠ '#') :
    replaceHashNumber (c :: rest) = c :: replaceHashNumber rest := by
  rw [replaceHashNumber]
  simp [hc]

theorem replaceHashNumber_no_trigger (rest : List Char)
    (hw : ((rest.takeWhile isAsciiDigit).isEmpty ||
      ((rest.dropWhile isAsciiDigit).takeWhile isHashPunct).isEmpty) = true) :
    replaceHashNumber ('#' :: rest) = '#' :: replaceHashNumber rest := by
  rw [replaceHashNumber]
  simp [hw]

theorem replaceHashNumber_trigger (rest : List Char)
    (hw : ((rest.takeWhile isAsciiDigit).isEmpty ||
      ((rest.dropWhile isAsciiDigit).takeWhile isHashPunct).isEmpty) = false) :
    replaceHashNumber ('#' :: rest) =
      '#' :: (rest.takeWhile isAsciiDigit ++ ' ' ::
        ((rest.dropWhile isAsciiDigit).takeWhile isHashPunct ++
          replaceHashNumber
            ((rest.dropWhile isAsciiDigit).dropWhile isHashPunct))) := by
  rw [replaceHashNumber]
  simp [hw]

theorem replaceHashUrl_nil : replaceHashUrl [] = [] := by
  rw [replaceHashUrl]

theorem replaceHashUrl_cons_ne (c : Char) (rest : List Char)
    (hc : c ≠ '#') :
    replaceHashUrl (c :: rest) = c :: replaceHashUrl rest := by
  rw [replaceHashUrl]
  simp [hc]

theorem replaceHashUrl_no_trigger (rest : List Char)
    (hw : ((rest.takeWhile isAsciiDigit).isEmpty ||
      !startsWithChars ['h', 't', 't', 'p']
        (rest.dropWhile isAsciiDigit)) = true) :
    replaceHashUrl ('#' :: rest) = '#' :: replaceHashUrl rest := by
  rw [replaceHashUrl]
  simp [hw]

theorem replaceHashUrl_trigger (rest : List Char)
    (hw : ((rest.takeWhile isAsciiDigit).isEmpty ||
      !startsWithChars ['h', 't', 't', 'p']
        (rest.dropWhile isAsciiDigit)) = false) :
    replaceHashUrl ('#' :: rest) =
      '#' :: (rest.takeWhile isAsciiDigit ++ ' ' :: 'h' :: 't' :: 't' :: 'p' ::
        replaceHashUrl ((rest.dropWhile isAsciiDigit).drop 4)) := by
  rw [replaceHashUrl]
  simp [hw]

theorem takeWhile_eq_nil_iff_head (p : Char → Bool) (l : List Char) :
    l.takeWhile p = [] ↔ ∀ c, l.head? = some c → p c = false := by
  cases l with
  | nil => simp
  | cons a t =>
    rw [List.takeWhile_cons]
    by_cases hp : p a = true
    · simp [hp]
    · have hp' : p a = false := by
        revert hp
        cases p a <;> simp
      simp [hp']

theorem takeWhile_append_all (p : Char → Bool) (A X : List Char)
    (hA : ∀ c ∈ A, p c = true) :
    (A ++ X).takeWhile p = A ++ X.takeWhile p := by
  induction A with
  | nil => rfl
  | cons a A ih =>
    rw [List.cons_append, List.takeWhile_cons,
      if_pos (hA a (List.mem_cons_self _ _)), List.cons_append,
      ih fun c hc => hA c (List.mem_cons_of_mem _ hc)]

theorem dropWhile_append_all (p : Char → Bool) (A X : List Char)
    (hA : ∀ c ∈ A, p c = true) :
    (A ++ X).dropWhile p = X.dropWhile p := by
  induction A with
  | nil => rfl
  | cons a A ih =>
    rw [List.cons_append, List.dropWhile_cons,
      if_pos (hA a (List.mem_cons_self _ _)),
      ih fun c hc => hA c (List.mem_cons_of_mem _ hc)]

theorem head_dropWhile_false (p : Char → Bool) (l : List Char) :
    ∀ c, (l.dropWhile p).head? = some c → p c = false := by
  induction l with
  | nil => intro c hc; simp at hc
  | cons a t ih =>
    intro c hc
    rw [List.dropWhile_cons] at hc
    by_cases hp : p a = true
    · rw [if_pos hp] at hc
      exact ih c hc
    · rw [if_neg hp] at hc
      have : a = c := by simpa using hc
      subst this
      revert hp
      cases p a <;> simp

theorem mem_takeWhile_true (p : Char → Bool) (l : List Char) :
    ∀ c ∈ l.takeWhile p, p c = true := by
  induction l with
  | nil => intro c hc; simp at hc
  | cons a t ih =>
    intro c hc
    rw [List.takeWhile_cons] at hc
    by_cases hp : p a = true
    · rw [if_pos hp] at hc
      rcases List.mem_cons.mp hc with hc | hc
      · subst hc
        exact hp
      · exact ih c hc
    · rw [if_neg hp] at hc
      simp at hc

/-! Character-class facts used by the commutation arguments. -/

theorem isHashPunct_cases (c : Char) (h : isHashPunct c = true) :
    c = '「' ∨ c = '」' ∨ c = '『' ∨ c = '』' ∨ c = '（' ∨ c = '）' ∨
      c = '【' ∨ c = '】' ∨ c = ':' ∨ c = '：' ∨ c = '｜' ∨ c = '|' := by
  simpa [isHashPunct, or_assoc] using h

theorem hashPunct_facts (c : Char) (h : isHashPunct c = true) :
    c ≠ '@' ∧ c ≠ '#' ∧ isAsciiDigit c = false ∧ isWordChar c = false ∧
      c ≠ 'h' ∧ c ≠ '[' := by
  rcases isHashPunct_cases c h with
    h | h | h | h | h | h | h | h | h | h | h | h <;> subst h <;> decide

theorem asciiDigit_facts (c : Char) (h : isAsciiDigit c = true) :
    c ≠ '@' ∧ c ≠ '#' ∧ isWordChar c = true ∧ isHashPunct c = false ∧
      c ≠ 'h' ∧ c ≠ '[' := by
  constructor
  · intro heq
    subst heq
    exact absurd h (by decide)
  constructor
  · intro heq
    subst heq
    exact absurd h (by decide)
  constructor
  · simp only [isWordChar, isAsciiDigit] at h ⊢
    simp [h]
  constructor
  · cases hp : isHashPunct c
    · rfl
    · obtain ⟨_, _, hd, _⟩ := hashPunct_facts c hp
      rw [hd] at h
      exact absurd h (by simp)
  constructor
  · intro heq
    subst heq
    exact absurd h (by decide)
  · intro heq
    subst heq
    exact absurd h (by decide)

theorem wordChar_facts (c : Char) (h : isWordChar c = true) :
    c ≠ '@' ∧ c ≠ '#' := by
  constructor <;> intro heq <;> subst heq <;> exact absurd h (by decide)

theorem replaceAccount_head? (l : List Char) :
    (replaceAccount l).head? = l.head? ∨
      ((replaceAccount l).head? = some '[' ∧ l.head? = some '@') := by
  cases l with
  | nil =>
    rw [replaceAccount_nil]
    exact Or.inl rfl
  | cons c rest =>
    by_cases hc : c = '@'
    · subst hc
      cases hw : (rest.takeWhile isWordChar).isEmpty
      · rw [replaceAccount_at_match rest hw]
        exact Or.inr ⟨rfl, rfl⟩
      · rw [replaceAccount_at_empty rest hw]
        exact Or.inl rfl
    · rw [replaceAccount_cons_ne c rest hc]
      exact Or.inl rfl

theorem replaceHashNumber_head? (l : List Char) :
    (replaceHashNumber l).head? = l.head? := by
  cases l with
  | nil => rw [replaceHashNumber_nil]
  | cons c rest =>
    by_cases hc : c = '#'
    · subst hc
      cases hw : ((rest.takeWhile isAsciiDigit).isEmpty ||
          ((rest.dropWhile isAsciiDigit).takeWhile isHashPunct).isEmpty)
      · rw [replaceHashNumber_trigger rest hw]
        rfl
      · rw [replaceHashNumber_no_trigger rest hw]
        rfl
    · rw [replaceHashNumber_cons_ne c rest hc]
      rfl

theorem replaceHashUrl_head? (l : List Char) :
    (replaceHashUrl l).head? = l.head? := by
  cases l with
  | nil => rw [replaceHashUrl_nil]
  | cons c rest =>
    by_cases hc : c = '#'
    · subst hc
      cases hw : ((rest.takeWhile isAsciiDigit).isEmpty ||
          !startsWithChars ['h', 't', 't', 'p'] (rest.dropWhile isAsciiDigit))
      · rw [replaceHashUrl_trigger rest hw]
        rfl
      · rw [replaceHashUrl_no_trigger rest hw]
        rfl
    · rw [replaceHashUrl_cons_ne c rest hc]
      rfl

/-- Head-failure of a character class survives `replaceAccount` when the
class rejects `[`. -/
theorem replaceAccount_head_fails (p : Char → Bool) (hb : p '[' = false)
    (l : List Char)
    (h : ∀ c, l.head? = some c → p c = false) :
    ∀ c, (replaceAccount l).head? = some c → p c = false := by
  intro c hc
  rcases replaceAccount_head? l with heq | ⟨h1, _⟩
  · exact h c (heq ▸ hc)
  · rw [h1] at hc
    have : c = '[' := by simpa using hc.symm
    subst this
    exact hb

theorem replaceAccount_append_no_at (A X : List Char)
    (hA : ∀ c ∈ A, c ≠ '@') :
    replaceAccount (A ++ X) = A ++ replaceAccount X := by
  induction A with
  | nil => rfl
  | cons a A ih =>
    rw [List.cons_append,
      replaceAccount_cons_ne a _ (hA a (List.mem_cons_self _ _)),
      ih fun c hc => hA c (List.mem_cons_of_mem _ hc), List.cons_append]

theorem replaceHashNumber_append_no_hash (A X : List Char)
    (hA : ∀ c ∈ A, c ≠ '#') :
    replaceHashNumber (A ++ X) = A ++ replaceHashNumber X := by
  induction A with
  | nil => rfl
  | cons a A ih =>
    rw [List.cons_append,
      replaceHashNumber_cons_ne a _ (hA a (List.mem_cons_self _ _)),
      ih fun c hc => hA c (List.mem_cons_of_mem _ hc), List.cons_append]

theorem replaceHashUrl_append_no_hash (A X : List Char)
    (hA : ∀ c ∈ A, c ≠ '#') :
    replaceHashUrl (A ++ X) = A ++ replaceHashUrl X := by
  induction A with
  | nil => rfl
  | cons a A ih =>
    rw [List.cons_append,
      replaceHashUrl_cons_ne a _ (hA a (List.mem_cons_self _ _)),
      ih fun c hc => hA c (List.mem_cons_of_mem _ hc), List.cons_append]

theorem startsWithChars_append_self (P X : List Char) :
    startsWithChars P (P ++ X) = true := by
  induction P with
  | nil => rfl
  | cons p P ih => simp [startsWithChars, ih]

theorem startsWith_http_decompose (u : List Char)
    (h : startsWithChars ['h', 't', 't', 'p'] u = true) :
    u = 'h' :: 't' :: 't' :: 'p' :: u.drop 4 := by
  cases u with
  | nil => simp [startsWithChars] at h
  | cons c1 r1 =>
    cases r1 with
    | nil => simp [startsWithChars] at h
    | cons c2 r2 =>
      cases r2 with
      | nil => simp [startsWithChars] at h
      | cons c3 r3 =>
        cases r3 with
        | nil => simp [startsWithChars] at h
        | cons c4 t =>
          simp only [startsWithChars, Bool.and_eq_true,
            decide_eq_true_eq] at h
          obtain ⟨e1, e2, e3, e4, _⟩ := h
          subst e1
          subst e2
          subst e3
          subst e4
          rfl

/-- `replaceHashNumber` neither creates nor destroys a leading pattern
whose characters avoid `#`. -/
theorem startsWith_replaceHashNumber (P : List Char)
    (hP : ∀ c ∈ P, c ≠ '#') :
    ∀ l, startsWithChars P (replaceHashNumber l) = startsWithChars P l := by
  induction P with
  | nil => intro l; rfl
  | cons p P ih =>
    intro l
    cases l with
    | nil => rw [replaceHashNumber_nil]
    | cons c rest =>
      by_cases hc : c = '#'
      · subst hc
        have hp : (p = '#') = False := by
          simp [hP p (List.mem_cons_self _ _)]
        cases hw : ((rest.takeWhile isAsciiDigit).isEmpty ||
            ((rest.dropWhile isAsciiDigit).takeWhile isHashPunct).isEmpty)
        · rw [replaceHashNumber_trigger rest hw]
          simp [startsWithChars, hp]
        · rw [replaceHashNumber_no_trigger rest hw]
          simp [startsWithChars, hp]
      · rw [replaceHashNumber_cons_ne c rest hc]
        simp only [startsWithChars]
        rw [ih (fun d hd => hP d (List.mem_cons_of_mem _ hd)) rest]

/-- `replaceHashUrl` neither creates nor destroys a leading pattern
whose characters avoid `#`. -/
theorem startsWith_replaceHashUrl (P : List Char)
    (hP : ∀ c ∈ P, c ≠ '#') :
    ∀ l, startsWithChars P (replaceHashUrl l) = startsWithChars P l := by
  induction P with
  | nil => intro l; rfl
  | cons p P ih =>
    intro l
    cases l with
    | nil => rw [replaceHashUrl_nil]
    | cons c rest =>
      by_cases hc : c = '#'
      · subst hc
        have hp : (p = '#') = False := by
          simp [hP p (List.mem_cons_self _ _)]
        cases hw : ((rest.takeWhile isAsciiDigit).isEmpty ||
            !startsWithChars ['h', 't', 't', 'p']
              (rest.dropWhile isAsciiDigit))
        · rw [replaceHashUrl_trigger rest hw]
          simp [startsWithChars, hp]
        · rw [replaceHashUrl_no_trigger rest hw]
          simp [startsWithChars, hp]
      · rw [replaceHashUrl_cons_ne c rest hc]
        simp only [startsWithChars]
        rw [ih (fun d hd => hP d (List.mem_cons_of_mem _ hd)) rest]

/-- `replaceAccount` neither creates nor destroys a leading pattern
whose characters avoid `@` and `[`. -/
theorem startsWith_replaceAccount (P : List Char)
    (hP : ∀ c ∈ P, c ≠ '@' ∧ c ≠ '[') :
    ∀ l, startsWithChars P (replaceAccount l) = startsWithChars P l := by
  induction P with
  | nil => intro l; rfl
  | cons p P ih =>
    intro l
    cases l with
    | nil => rw [replaceAccount_nil]
    | cons c rest =>
      by_cases hc : c = '@'
      · subst hc
        have hpa : (p = '@') = False := by
          simp [(hP p (List.mem_cons_self _ _)).1]
        have hpb : (p = '[') = False := by
          simp [(hP p (List.mem_cons_self _ _)).2]
        cases hw : (rest.takeWhile isWordChar).isEmpty
        · rw [replaceAccount_at_match rest hw]
          simp [startsWithChars, hpa, hpb]
        · rw [replaceAccount_at_empty rest hw]
          simp [startsWithChars, hpa]
      · rw [replaceAccount_cons_ne c rest hc]
        simp only [startsWithChars]
        rw [ih (fun d hd => hP d (List.mem_cons_of_mem _ hd)) rest]

theorem replaceAccount_no_match :
    ∀ l, hasAccountMatch l = false → replaceAccount l = l := by
  intro l
  induction l with
  | nil => intro _; exact replaceAccount_nil
  | cons c rest ih =>
    intro h
    by_cases hc : c = '@'
    · subst hc
      cases hw : (rest.takeWhile isWordChar).isEmpty
      · exfalso
        rw [show hasAccountMatch ('@' :: rest) = true from by
          simp [hasAccountMatch, hw]] at h
        exact absurd h (by simp)
      · rw [replaceAccount_at_empty rest hw]
        have h' : hasAccountMatch rest = false := by
          simpa [hasAccountMatch, hw] using h
        rw [ih h']
    · rw [replaceAccount_cons_ne c rest hc]
      have h' : hasAccountMatch rest = false := by
        simpa [hasAccountMatch, hc] using h
      rw [ih h']

theorem replaceHashNumber_no_match :
    ∀ l, hasHashNumberMatch l = false → replaceHashNumber l = l := by
  intro l
  induction l with
  | nil => intro _; exact replaceHashNumber_nil
  | cons c rest ih =>
    intro h
    by_cases hc : c = '#'
    · subst hc
      cases hw : ((rest.takeWhile isAsciiDigit).isEmpty ||
          ((rest.dropWhile isAsciiDigit).takeWhile isHashPunct).isEmpty)
      · exfalso
        rw [show hasHashNumberMatch ('#' :: rest) = true from by
          simp only [hasHashNumberMatch, if_pos rfl, hw]
          rfl] at h
        exact absurd h (by simp)
      · rw [replaceHashNumber_no_trigger rest hw]
        have h' : hasHashNumberMatch rest = false := by
          rw [show hasHashNumberMatch ('#' :: rest) =
            hasHashNumberMatch rest from by
            simp only [hasHashNumberMatch, if_pos rfl, hw]
            rfl] at h
          exact h
        rw [ih h']
    · rw [replaceHashNumber_cons_ne c rest hc]
      have h' : hasHashNumberMatch rest = false := by
        simpa [hasHashNumberMatch, hc] using h
      rw [ih h']

theorem replaceHashUrl_no_match :
    ∀ l, hasHashUrlMatch l = false → replaceHashUrl l = l := by
  intro l
  induction l with
  | nil => intro _; exact replaceHashUrl_nil
  | cons c rest ih =>
    intro h
    by_cases hc : c = '#'
    · subst hc
      cases hw : ((rest.takeWhile isAsciiDigit).isEmpty ||
          !startsWithChars ['h', 't', 't', 'p'] (rest.dropWhile isAsciiDigit))
      · exfalso
        rw [show hasHashUrlMatch ('#' :: rest) = true from by
          simp only [hasHashUrlMatch, if_pos rfl, hw]
          rfl] at h
        exact absurd h (by simp)
      · rw [replaceHashUrl_no_trigger rest hw]
        have h' : hasHashUrlMatch rest = false := by
          rw [show hasHashUrlMatch ('#' :: rest) =
            hasHashUrlMatch rest from by
            simp only [hasHashUrlMatch, if_pos rfl, hw]
            rfl] at h
          exact h
        rw [ih h']
    · rw [replaceHashUrl_cons_ne c rest hc]
      have h' : hasHashUrlMatch rest = false := by
        simpa [hasHashUrlMatch, hc] using h
      rw [ih h']

/-- **C4.** On text with no remaining raw `@handle` match and no
remaining `#digits`-punctuation or `#digits`-http match, re-applying
substitution rules 2–4 changes nothing; and the full formatter
(because of the newline-indentation rule 1) is not idempotent: applying
it twice to a newline yields a different result than applying it
once. -/
theorem formatter_rules_idempotence (l : List Char)
    (h2 : hasAccountMatch l = false) (h3 : hasHashNumberMatch l = false)
    (h4 : hasHashUrlMatch l = false) :
    replaceHashUrl (replaceHashNumber (replaceAccount l)) = l ∧
    formatTextChars (formatTextChars ['\n']) ≠ formatTextChars ['\n'] := by
  constructor
  · rw [replaceAccount_no_match l h2, replaceHashNumber_no_match l h3,
      replaceHashUrl_no_match l h4]
  · have e1 : formatTextChars ['\n'] = ['\n', ' ', ' '] := by
      show replaceHashUrl (replaceHashNumber (replaceAccount
        (indentNewlines ['\n']))) = ['\n', ' ', ' ']
      rw [show indentNewlines ['\n'] = ['\n', ' ', ' '] from by
        simp [indentNewlines]]
      rw [replaceAccount_cons_ne _ _ (by decide),
        replaceAccount_cons_ne _ _ (by decide),
        replaceAccount_cons_ne _ _ (by decide), replaceAccount_nil,
        replaceHashNumber_cons_ne _ _ (by decide),
        replaceHashNumber_cons_ne _ _ (by decide),
        replaceHashNumber_cons_ne _ _ (by decide), replaceHashNumber_nil,
        replaceHashUrl_cons_ne _ _ (by decide),
        replaceHashUrl_cons_ne _ _ (by decide),
        replaceHashUrl_cons_ne _ _ (by decide), replaceHashUrl_nil]
    have e2 : formatTextChars ['\n', ' ', ' '] =
        ['\n', ' ', ' ', ' ', ' '] := by
      show replaceHashUrl (replaceHashNumber (replaceAccount
        (indentNewlines ['\n', ' ', ' ']))) = ['\n', ' ', ' ', ' ', ' ']
      rw [show indentNewlines ['\n', ' ', ' '] = ['\n', ' ', ' ', ' ', ' ']
        from by simp [indentNewlines]]
      rw [replaceAccount_cons_ne _ _ (by decide),
        replaceAccount_cons_ne _ _ (by decide),
        replaceAccount_cons_ne _ _ (by decide),
        replaceAccount_cons_ne _ _ (by decide),
        replaceAccount_cons_ne _ _ (by decide), replaceAccount_nil,
        replaceHashNumber_cons_ne _ _ (by decide),
        replaceHashNumber_cons_ne _ _ (by decide),
        replaceHashNumber_cons_ne _ _ (by decide),
        replaceHashNumber_cons_ne _ _ (by decide),
        replaceHashNumber_cons_ne _ _ (by decide), replaceHashNumber_nil,
        replaceHashUrl_cons_ne _ _ (by decide),
        replaceHashUrl_cons_ne _ _ (by decide),
        replaceHashUrl_cons_ne _ _ (by decide),
        replaceHashUrl_cons_ne _ _ (by decide),
        replaceHashUrl_cons_ne _ _ (by decide), replaceHashUrl_nil]
    rw [e1, e2]
    decide

/-- Witness for C4: the theorem applied to an already-formatted body
with no remaining raw patterns. -/
theorem formatter_rules_idempotence_witness :
    replaceHashUrl (replaceHashNumber (replaceAccount
      "plain hello #5 「quote」 #7 http".data)) =
      "plain hello #5 「quote」 #7 http".data ∧
    formatTextChars (formatTextChars ['\n']) ≠ formatTextChars ['\n'] :=
  formatter_rules_idempotence "plain hello #5 「quote」 #7 http".data
    (by decide) (by decide) (by decide)

theorem dropWhile_eq_self_of_head (p : Char → Bool) (l : List Char)
    (h : ∀ c, l.head? = some c → p c = false) : l.dropWhile p = l := by
  cases l with
  | nil => rfl
  | cons a t =>
    have ha := h a rfl
    rw [List.dropWhile_cons]
    simp [ha]

/-- A maximal `p`-run followed by a list whose head fails `p`. -/
theorem run_split (p : Char → Bool) (A X : List Char)
    (hA : ∀ c ∈ A, p c = true)
    (hX : ∀ c, X.head? = some c → p c = false) :
    (A ++ X).takeWhile p = A ∧ (A ++ X).dropWhile p = X := by
  constructor
  · rw [takeWhile_append_all p A X hA,
      (takeWhile_eq_nil_iff_head p X).mpr hX, List.append_nil]
  · rw [dropWhile_append_all p A X hA, dropWhile_eq_self_of_head p X hX]

theorem replaceHashNumber_head_fails (p : Char → Bool) (l : List Char)
    (h : ∀ c, l.head? = some c → p c = false) :
    ∀ c, (replaceHashNumber l).head? = some c → p c = false := by
  intro c hc
  rw [replaceHashNumber_head?] at hc
  exact h c hc

theorem replaceHashUrl_head_fails (p : Char → Bool) (l : List Char)
    (h : ∀ c, l.head? = some c → p c = false) :
    ∀ c, (replaceHashUrl l).head? = some c → p c = false := by
  intro c hc
  rw [replaceHashUrl_head?] at hc
  exact h c hc

theorem isEmpty_eq_true_iff (l : List Char) : l.isEmpty = true ↔ l = [] := by
  cases l <;> simp

theorem isEmpty_eq_false_iff (l : List Char) : l.isEmpty = false ↔ l ≠ [] := by
  cases l <;> simp

theorem head?_mem (l : List Char) (c : Char) (h : l.head? = some c) :
    c ∈ l := by
  cases l with
  | nil => simp at h
  | cons a t =>
    have : a = c := by simpa using h
    subst this
    exact List.mem_cons_self _ _

theorem head_fails_append_left (p : Char → Bool) (A X : List Char)
    (hA : A ≠ []) (h : ∀ c, A.head? = some c → p c = false) :
    ∀ c, (A ++ X).head? = some c → p c = false := by
  cases A with
  | nil => exact absurd rfl hA
  | cons a t =>
    intro c hc
    exact h c (by simpa using hc)

/-- Rules 2 and 3 commute: `re_account` and `re_hash_number`
rewriting can be applied in either order. -/
theorem comm_ra_rhn : ∀ n, ∀ l : List Char, l.length ≤ n →
    replaceAccount (replaceHashNumber l) =
      replaceHashNumber (replaceAccount l) := by
  intro n
  induction n with
  | zero =>
    intro l hl
    have hnil : l = [] := List.eq_nil_of_length_eq_zero (Nat.le_zero.mp hl)
    subst hnil
    rw [replaceHashNumber_nil, replaceAccount_nil, replaceHashNumber_nil]
  | succ n ih =>
    intro l hl
    cases l with
    | nil =>
      rw [replaceHashNumber_nil, replaceAccount_nil, replaceHashNumber_nil]
    | cons c rest =>
      have hrest : rest.length ≤ n := by
        simp only [List.length_cons] at hl
        omega
      by_cases hc2 : c = '@'
      · subst hc2
        cases hw : (rest.takeWhile isWordChar).isEmpty with
        | true =>
          have hwh : ∀ d, rest.head? = some d → isWordChar d = false :=
            (takeWhile_eq_nil_iff_head _ rest).mp
              ((isEmpty_eq_true_iff _).mp hw)
          have hw' : ((replaceHashNumber rest).takeWhile
              isWordChar).isEmpty = true := by
            rw [isEmpty_eq_true_iff, takeWhile_eq_nil_iff_head]
            exact replaceHashNumber_head_fails _ rest hwh
          rw [replaceHashNumber_cons_ne '@' rest (by decide),
            replaceAccount_at_empty _ hw',
            replaceAccount_at_empty rest hw,
            replaceHashNumber_cons_ne '@' _ (by decide), ih rest hrest]
        | false =>
          have hwword := mem_takeWhile_true isWordChar rest
          have hwnh : ∀ d ∈ rest.takeWhile isWordChar, d ≠ '#' :=
            fun d hd => (wordChar_facts d (hwword d hd)).2
          have hrh : ∀ d, (rest.dropWhile isWordChar).head? = some d →
              isWordChar d = false := head_dropWhile_false _ rest
          have hrlen : (rest.dropWhile isWordChar).length ≤ n :=
            le_trans (lengthDropWhileLe _ rest) hrest
          rw [replaceHashNumber_cons_ne '@' rest (by decide)]
          have hrw : replaceHashNumber rest =
              rest.takeWhile isWordChar ++
                replaceHashNumber (rest.dropWhile isWordChar) := by
            conv_lhs =>
              rw [show rest = rest.takeWhile isWordChar ++
                rest.dropWhile isWordChar from
                (List.takeWhile_append_dropWhile _ _).symm]
            exact replaceHashNumber_append_no_hash _ _ hwnh
          rw [hrw]
          obtain ⟨hrun1, hrun2⟩ := run_split isWordChar
            (rest.takeWhile isWordChar)
            (replaceHashNumber (rest.dropWhile isWordChar)) hwword
            (replaceHashNumber_head_fails _ _ hrh)
          have hwe : ((rest.takeWhile isWordChar ++
              replaceHashNumber (rest.dropWhile isWordChar)).takeWhile
                isWordChar).isEmpty = false := by
            rw [hrun1]
            exact hw
          rw [replaceAccount_at_match _ hwe, hrun1, hrun2,
            replaceAccount_at_match rest hw,
            replaceHashNumber_cons_ne '[' _ (by decide),
            replaceHashNumber_cons_ne '[' _ (by decide),
            replaceHashNumber_cons_ne '@' _ (by decide),
            replaceHashNumber_append_no_hash _ _ hwnh,
            replaceHashNumber_cons_ne ']' _ (by decide),
            replaceHashNumber_cons_ne ']' _ (by decide),
            ih (rest.dropWhile isWordChar) hrlen]
      · by_cases hc3 : c = '#'
        · subst hc3
          cases hw : ((rest.takeWhile isAsciiDigit).isEmpty ||
              ((rest.dropWhile isAsciiDigit).takeWhile
                isHashPunct).isEmpty) with
          | true =>
            have hw' : (((replaceAccount rest).takeWhile
                isAsciiDigit).isEmpty ||
                (((replaceAccount rest).dropWhile isAsciiDigit).takeWhile
                  isHashPunct).isEmpty) = true := by
              by_cases hds : (rest.takeWhile isAsciiDigit).isEmpty = true
              · have hh : ∀ d, rest.head? = some d →
                    isAsciiDigit d = false :=
                  (takeWhile_eq_nil_iff_head _ rest).mp
                    ((isEmpty_eq_true_iff _).mp hds)
                have : ((replaceAccount rest).takeWhile
                    isAsciiDigit).isEmpty = true := by
                  rw [isEmpty_eq_true_iff, takeWhile_eq_nil_iff_head]
                  exact replaceAccount_head_fails _ (by decide) rest hh
                rw [this]
                rfl
              · have hds' : (rest.takeWhile isAsciiDigit).isEmpty = false := by
                  revert hds
                  cases (rest.takeWhile isAsciiDigit).isEmpty <;> simp
                have hps : ((rest.dropWhile isAsciiDigit).takeWhile
                    isHashPunct).isEmpty = true := by
                  rw [hds'] at hw
                  simpa using hw
                have hdig := mem_takeWhile_true isAsciiDigit rest
                have hdna : ∀ d ∈ rest.takeWhile isAsciiDigit, d ≠ '@' :=
                  fun d hd => (asciiDigit_facts d (hdig d hd)).1
                have huh : ∀ d, (rest.dropWhile isAsciiDigit).head? =
                    some d → isAsciiDigit d = false :=
                  head_dropWhile_false _ rest
                have hra_rest : replaceAccount rest =
                    rest.takeWhile isAsciiDigit ++
                      replaceAccount (rest.dropWhile isAsciiDigit) := by
                  conv_lhs =>
                    rw [show rest = rest.takeWhile isAsciiDigit ++
                      rest.dropWhile isAsciiDigit from
                      (List.takeWhile_append_dropWhile _ _).symm]
                  exact replaceAccount_append_no_at _ _ hdna
                obtain ⟨hs1, hs2⟩ := run_split isAsciiDigit
                  (rest.takeWhile isAsciiDigit)
                  (replaceAccount (rest.dropWhile isAsciiDigit)) hdig
                  (replaceAccount_head_fails _ (by decide) _ huh)
                have hup : ∀ d, (rest.dropWhile isAsciiDigit).head? =
                    some d → isHashPunct d = false :=
                  (takeWhile_eq_nil_iff_head _ _).mp
                    ((isEmpty_eq_true_iff _).mp hps)
                have hps' : ((replaceAccount
                    (rest.dropWhile isAsciiDigit)).takeWhile
                      isHashPunct).isEmpty = true := by
                  rw [isEmpty_eq_true_iff, takeWhile_eq_nil_iff_head]
                  exact replaceAccount_head_fails _ (by decide) _ hup
                rw [hra_rest, hs1, hs2, hps']
                simp
            rw [replaceHashNumber_no_trigger rest hw,
              replaceAccount_cons_ne '#' _ (by decide),
              replaceAccount_cons_ne '#' rest (by decide),
              replaceHashNumber_no_trigger _ hw', ih rest hrest]
          | false =>
            obtain ⟨hdsne, hpsne⟩ :
                (rest.takeWhile isAsciiDigit).isEmpty = false ∧
                ((rest.dropWhile isAsciiDigit).takeWhile
                  isHashPunct).isEmpty = false := by
              cases h1 : (rest.takeWhile isAsciiDigit).isEmpty <;>
                cases h2 : ((rest.dropWhile isAsciiDigit).takeWhile
                  isHashPunct).isEmpty <;>
                rw [h1, h2] at hw <;> simp_all
            have hdig := mem_takeWhile_true isAsciiDigit rest
            have hdna : ∀ d ∈ rest.takeWhile isAsciiDigit, d ≠ '@' :=
              fun d hd => (asciiDigit_facts d (hdig d hd)).1
            have hpunct := mem_takeWhile_true isHashPunct
              (rest.dropWhile isAsciiDigit)
            have hpna : ∀ d ∈ (rest.dropWhile isAsciiDigit).takeWhile
                isHashPunct, d ≠ '@' :=
              fun d hd => (hashPunct_facts d (hpunct d hd)).1
            have hth : ∀ d, ((rest.dropWhile isAsciiDigit).dropWhile
                isHashPunct).head? = some d → isHashPunct d = false :=
              head_dropWhile_false _ _
            have huh : ∀ d, (rest.dropWhile isAsciiDigit).head? = some d →
                isAsciiDigit d = false := head_dropWhile_false _ rest
            have htlen : ((rest.dropWhile isAsciiDigit).dropWhile
                isHashPunct).length ≤ n :=
              le_trans (lengthDropWhileLe _ _)
                (le_trans (lengthDropWhileLe _ rest) hrest)
            rw [replaceHashNumber_trigger rest hw,
              replaceAccount_cons_ne '#' _ (by decide),
              replaceAccount_append_no_at _ _ hdna,
              replaceAccount_cons_ne ' ' _ (by decide),
              replaceAccount_append_no_at _ _ hpna,
              ih _ htlen,
              replaceAccount_cons_ne '#' rest (by decide)]
            have hra_rest : replaceAccount rest =
                rest.takeWhile isAsciiDigit ++
                  ((rest.dropWhile isAsciiDigit).takeWhile isHashPunct ++
                    replaceAccount ((rest.dropWhile
                      isAsciiDigit).dropWhile isHashPunct)) := by
              conv_lhs =>
                rw [show rest = rest.takeWhile isAsciiDigit ++
                  rest.dropWhile isAsciiDigit from
                  (List.takeWhile_append_dropWhile _ _).symm]
              rw [replaceAccount_append_no_at _ _ hdna]
              congr 1
              conv_lhs =>
                rw [show rest.dropWhile isAsciiDigit =
                  (rest.dropWhile isAsciiDigit).takeWhile isHashPunct ++
                    (rest.dropWhile isAsciiDigit).dropWhile isHashPunct
                  from (List.takeWhile_append_dropWhile _ _).symm]
              exact replaceAccount_append_no_at _ _ hpna
            have hps_head : ∀ c, ((rest.dropWhile isAsciiDigit).takeWhile
                isHashPunct ++ replaceAccount ((rest.dropWhile
                  isAsciiDigit).dropWhile isHashPunct)).head? = some c →
                isAsciiDigit c = false := by
              apply head_fails_append_left
              · exact (isEmpty_eq_false_iff _).mp hpsne
              · intro c hc
                exact (hashPunct_facts c (hpunct c (head?_mem _ c hc))).2.2.1
            obtain ⟨hs1, hs2⟩ := run_split isAsciiDigit
              (rest.takeWhile isAsciiDigit)
              ((rest.dropWhile isAsciiDigit).takeWhile isHashPunct ++
                replaceAccount ((rest.dropWhile isAsciiDigit).dropWhile
                  isHashPunct)) hdig hps_head
            obtain ⟨hs3, hs4⟩ := run_split isHashPunct
              ((rest.dropWhile isAsciiDigit).takeWhile isHashPunct)
              (replaceAccount ((rest.dropWhile isAsciiDigit).dropWhile
                isHashPunct)) hpunct
              (replaceAccount_head_fails _ (by decide) _ hth)
            have hw' : (((replaceAccount rest).takeWhile
                isAsciiDigit).isEmpty ||
                (((replaceAccount rest).dropWhile isAsciiDigit).takeWhile
                  isHashPunct).isEmpty) = false := by
              rw [hra_rest, hs1, hs2, hs3, hdsne, hpsne]
              rfl
            rw [replaceHashNumber_trigger _ hw']
            rw [hra_rest] at hw' ⊢
            rw [hs1, hs2, hs3, hs4]
        · rw [replaceHashNumber_cons_ne c rest hc3,
            replaceAccount_cons_ne c _ hc2,
            replaceAccount_cons_ne c rest hc2,
            replaceHashNumber_cons_ne c _ hc3, ih rest hrest]

/-- Rules 2 and 4 commute: `re_account` and `re_hash_url` rewriting can
be applied in either order. -/
theorem comm_ra_rhu : ∀ n, ∀ l : List Char, l.length ≤ n →
    replaceAccount (replaceHashUrl l) =
      replaceHashUrl (replaceAccount l) := by
  intro n
  induction n with
  | zero =>
    intro l hl
    have hnil : l = [] := List.eq_nil_of_length_eq_zero (Nat.le_zero.mp hl)
    subst hnil
    rw [replaceHashUrl_nil, replaceAccount_nil, replaceHashUrl_nil]
  | succ n ih =>
    intro l hl
    cases l with
    | nil =>
      rw [replaceHashUrl_nil, replaceAccount_nil, replaceHashUrl_nil]
    | cons c rest =>
      have hrest : rest.length ≤ n := by
        simp only [List.length_cons] at hl
        omega
      by_cases hc2 : c = '@'
      · subst hc2
        cases hw : (rest.takeWhile isWordChar).isEmpty with
        | true =>
          have hwh : ∀ d, rest.head? = some d → isWordChar d = false :=
            (takeWhile_eq_nil_iff_head _ rest).mp
              ((isEmpty_eq_true_iff _).mp hw)
          have hw' : ((replaceHashUrl rest).takeWhile
              isWordChar).isEmpty = true := by
            rw [isEmpty_eq_true_iff, takeWhile_eq_nil_iff_head]
            exact replaceHashUrl_head_fails _ rest hwh
          rw [replaceHashUrl_cons_ne '@' rest (by decide),
            replaceAccount_at_empty _ hw',
            replaceAccount_at_empty rest hw,
            replaceHashUrl_cons_ne '@' _ (by decide), ih rest hrest]
        | false =>
          have hwword := mem_takeWhile_true isWordChar rest
          have hwnh : ∀ d ∈ rest.takeWhile isWordChar, d ≠ '#' :=
            fun d hd => (wordChar_facts d (hwword d hd)).2
          have hrh : ∀ d, (rest.dropWhile isWordChar).head? = some d →
              isWordChar d = false := head_dropWhile_false _ rest
          have hrlen : (rest.dropWhile isWordChar).length ≤ n :=
            le_trans (lengthDropWhileLe _ rest) hrest
          rw [replaceHashUrl_cons_ne '@' rest (by decide)]
          have hrw : replaceHashUrl rest =
              rest.takeWhile isWordChar ++
                replaceHashUrl (rest.dropWhile isWordChar) := by
            conv_lhs =>
              rw [show rest = rest.takeWhile isWordChar ++
                rest.dropWhile isWordChar from
                (List.takeWhile_append_dropWhile _ _).symm]
            exact replaceHashUrl_append_no_hash _ _ hwnh
          rw [hrw]
          obtain ⟨hrun1, hrun2⟩ := run_split isWordChar
            (rest.takeWhile isWordChar)
            (replaceHashUrl (rest.dropWhile isWordChar)) hwword
            (replaceHashUrl_head_fails _ _ hrh)
          have hwe : ((rest.takeWhile isWordChar ++
              replaceHashUrl (rest.dropWhile isWordChar)).takeWhile
                isWordChar).isEmpty = false := by
            rw [hrun1]
            exact hw
          rw [replaceAccount_at_match _ hwe, hrun1, hrun2,
            replaceAccount_at_match rest hw,
            replaceHashUrl_cons_ne '[' _ (by decide),
            replaceHashUrl_cons_ne '[' _ (by decide),
            replaceHashUrl_cons_ne '@' _ (by decide),
            replaceHashUrl_append_no_hash _ _ hwnh,
            replaceHashUrl_cons_ne ']' _ (by decide),
            replaceHashUrl_cons_ne ']' _ (by decide),
            ih (rest.dropWhile isWordChar) hrlen]
      · by_cases hc3 : c = '#'
        · subst hc3
          cases hw : ((rest.takeWhile isAsciiDigit).isEmpty ||
              !startsWithChars ['h', 't', 't', 'p']
                (rest.dropWhile isAsciiDigit)) with
          | true =>
            have hw' : (((replaceAccount rest).takeWhile
                isAsciiDigit).isEmpty ||
                !startsWithChars ['h', 't', 't', 'p']
                  ((replaceAccount rest).dropWhile isAsciiDigit)) = true := by
              by_cases hds : (rest.takeWhile isAsciiDigit).isEmpty = true
              · have hh : ∀ d, rest.head? = some d →
                    isAsciiDigit d = false :=
                  (takeWhile_eq_nil_iff_head _ rest).mp
                    ((isEmpty_eq_true_iff _).mp hds)
                have : ((replaceAccount rest).takeWhile
                    isAsciiDigit).isEmpty = true := by
                  rw [isEmpty_eq_true_iff, takeWhile_eq_nil_iff_head]
                  exact replaceAccount_head_fails _ (by decide) rest hh
                rw [this]
                rfl
              · have hds' : (rest.takeWhile isAsciiDigit).isEmpty =
                    false := by
                  revert hds
                  cases (rest.takeWhile isAsciiDigit).isEmpty <;> simp
                have hhtp : startsWithChars ['h', 't', 't', 'p']
                    (rest.dropWhile isAsciiDigit) = false := by
                  rw [hds'] at hw
                  simpa using hw
                have hdig := mem_takeWhile_true isAsciiDigit rest
                have hdna : ∀ d ∈ rest.takeWhile isAsciiDigit, d ≠ '@' :=
                  fun d hd => (asciiDigit_facts d (hdig d hd)).1
                have huh : ∀ d, (rest.dropWhile isAsciiDigit).head? =
                    some d → isAsciiDigit d = false :=
                  head_dropWhile_false _ rest
                have hra_rest : replaceAccount rest =
                    rest.takeWhile isAsciiDigit ++
                      replaceAccount (rest.dropWhile isAsciiDigit) := by
                  conv_lhs =>
                    rw [show rest = rest.takeWhile isAsciiDigit ++
                      rest.dropWhile isAsciiDigit from
                      (List.takeWhile_append_dropWhile _ _).symm]
                  exact replaceAccount_append_no_at _ _ hdna
                obtain ⟨hs1, hs2⟩ := run_split isAsciiDigit
                  (rest.takeWhile isAsciiDigit)
                  (replaceAccount (rest.dropWhile isAsciiDigit)) hdig
                  (replaceAccount_head_fails _ (by decide) _ huh)
                have hhtp' : startsWithChars ['h', 't', 't', 'p']
                    (replaceAccount (rest.dropWhile isAsciiDigit)) =
                    false := by
                  rw [startsWith_replaceAccount _ (by decide) _]
                  exact hhtp
                rw [hra_rest, hs1, hs2, hhtp']
                simp
            rw [replaceHashUrl_no_trigger rest hw,
              replaceAccount_cons_ne '#' _ (by decide),
              replaceAccount_cons_ne '#' rest (by decide),
              replaceHashUrl_no_trigger _ hw', ih rest hrest]
          | false =>
            obtain ⟨hdsne, hhtp⟩ :
                (rest.takeWhile isAsciiDigit).isEmpty = false ∧
                startsWithChars ['h', 't', 't', 'p']
                  (rest.dropWhile isAsciiDigit) = true := by
              cases h1 : (rest.takeWhile isAsciiDigit).isEmpty <;>
                cases h2 : startsWithChars ['h', 't', 't', 'p']
                  (rest.dropWhile isAsciiDigit) <;>
                rw [h1, h2] at hw <;> simp_all
            have hdig := mem_takeWhile_true isAsciiDigit rest
            have hdna : ∀ d ∈ rest.takeWhile isAsciiDigit, d ≠ '@' :=
              fun d hd => (asciiDigit_facts d (hdig d hd)).1
            have hu4 := startsWith_http_decompose
              (rest.dropWhile isAsciiDigit) hhtp
            have htlen : ((rest.dropWhile isAsciiDigit).drop 4).length ≤
                n := by
              have h5 := lengthDropWhileLe isAsciiDigit rest
              rw [List.length_drop]
              omega
            rw [replaceHashUrl_trigger rest hw,
              replaceAccount_cons_ne '#' _ (by decide),
              replaceAccount_append_no_at _ _ hdna,
              replaceAccount_cons_ne ' ' _ (by decide),
              replaceAccount_cons_ne 'h' _ (by decide),
              replaceAccount_cons_ne 't' _ (by decide),
              replaceAccount_cons_ne 't' _ (by decide),
              replaceAccount_cons_ne 'p' _ (by decide),
              ih _ htlen,
              replaceAccount_cons_ne '#' rest (by decide)]
            have hra_rest : replaceAccount rest =
                rest.takeWhile isAsciiDigit ++
                  ('h' :: 't' :: 't' :: 'p' ::
                    replaceAccount ((rest.dropWhile isAsciiDigit).drop
                      4)) := by
              conv_lhs =>
                rw [show rest = rest.takeWhile isAsciiDigit ++
                  rest.dropWhile isAsciiDigit from
                  (List.takeWhile_append_dropWhile _ _).symm]
              rw [replaceAccount_append_no_at _ _ hdna]
              congr 1
              conv_lhs => rw [hu4]
              rw [replaceAccount_cons_ne 'h' _ (by decide),
                replaceAccount_cons_ne 't' _ (by decide),
                replaceAccount_cons_ne 't' _ (by decide),
                replaceAccount_cons_ne 'p' _ (by decide)]
            obtain ⟨hs1, hs2⟩ := run_split isAsciiDigit
              (rest.takeWhile isAsciiDigit)
              ('h' :: 't' :: 't' :: 'p' ::
                replaceAccount ((rest.dropWhile isAsciiDigit).drop 4))
              hdig (by
                intro d hd
                have : d = 'h' := by simpa using hd.symm
                subst this
                decide)
            have hw' : (((replaceAccount rest).takeWhile
                isAsciiDigit).isEmpty ||
                !startsWithChars ['h', 't', 't', 'p']
                  ((replaceAccount rest).dropWhile isAsciiDigit)) =
                false := by
              rw [hra_rest, hs1, hs2, hdsne]
              rw [show startsWithChars ['h', 't', 't', 'p']
                ('h' :: 't' :: 't' :: 'p' ::
                  replaceAccount ((rest.dropWhile isAsciiDigit).drop 4)) =
                true from startsWithChars_append_self ['h', 't', 't', 'p']
                  (replaceAccount ((rest.dropWhile isAsciiDigit).drop 4))]
              rfl
            rw [replaceHashUrl_trigger _ hw']
            rw [hra_rest, hs1, hs2]
            rfl
        · rw [replaceHashUrl_cons_ne c rest hc3,
            replaceAccount_cons_ne c _ hc2,
            replaceAccount_cons_ne c rest hc2,
            replaceHashUrl_cons_ne c _ hc3, ih rest hrest]

/-- Rules 3 and 4 commute: `re_hash_number` and `re_hash_url` rewriting
can be applied in either order. -/
theorem comm_rhn_rhu : ∀ n, ∀ l : List Char, l.length ≤ n →
    replaceHashNumber (replaceHashUrl l) =
      replaceHashUrl (replaceHashNumber l) := by
  intro n
  induction n with
  | zero =>
    intro l hl
    have hnil : l = [] := List.eq_nil_of_length_eq_zero (Nat.le_zero.mp hl)
    subst hnil
    rw [replaceHashUrl_nil, replaceHashNumber_nil, replaceHashUrl_nil]
  | succ n ih =>
    intro l hl
    cases l with
    | nil =>
      rw [replaceHashUrl_nil, replaceHashNumber_nil, replaceHashUrl_nil]
    | cons c rest =>
      have hrest : rest.length ≤ n := by
        simp only [List.length_cons] at hl
        omega
      by_cases hc3 : c = '#'
      · subst hc3
        by_cases hds : (rest.takeWhile isAsciiDigit).isEmpty = true
        · -- no digits after the hash: neither rule fires here
          have hh : ∀ d, rest.head? = some d → isAsciiDigit d = false :=
            (takeWhile_eq_nil_iff_head _ rest).mp
              ((isEmpty_eq_true_iff _).mp hds)
          have hds4 : ((replaceHashUrl rest).takeWhile
              isAsciiDigit).isEmpty = true := by
            rw [isEmpty_eq_true_iff, takeWhile_eq_nil_iff_head]
            exact replaceHashUrl_head_fails _ rest hh
          have hds3 : ((replaceHashNumber rest).takeWhile
              isAsciiDigit).isEmpty = true := by
            rw [isEmpty_eq_true_iff, takeWhile_eq_nil_iff_head]
            exact replaceHashNumber_head_fails _ rest hh
          rw [replaceHashUrl_no_trigger rest (by rw [hds]; rfl),
            replaceHashNumber_no_trigger _ (by rw [hds4]; rfl),
            replaceHashNumber_no_trigger rest (by rw [hds]; rfl),
            replaceHashUrl_no_trigger _ (by rw [hds3]; rfl),
            ih rest hrest]
        · have hdsf : (rest.takeWhile isAsciiDigit).isEmpty = false := by
            revert hds
            cases (rest.takeWhile isAsciiDigit).isEmpty <;> simp
          have hdig := mem_takeWhile_true isAsciiDigit rest
          have hdnh : ∀ d ∈ rest.takeWhile isAsciiDigit, d ≠ '#' :=
            fun d hd => (asciiDigit_facts d (hdig d hd)).2.1
          have huh : ∀ d, (rest.dropWhile isAsciiDigit).head? = some d →
              isAsciiDigit d = false := head_dropWhile_false _ rest
          by_cases hps : ((rest.dropWhile isAsciiDigit).takeWhile
              isHashPunct).isEmpty = false
          · -- rule 3 fires; the punctuation head blocks rule 4
            have hpunct := mem_takeWhile_true isHashPunct
              (rest.dropWhile isAsciiDigit)
            have hpnh : ∀ d ∈ (rest.dropWhile isAsciiDigit).takeWhile
                isHashPunct, d ≠ '#' :=
              fun d hd => (hashPunct_facts d (hpunct d hd)).2.1
            have hth : ∀ d, ((rest.dropWhile isAsciiDigit).dropWhile
                isHashPunct).head? = some d → isHashPunct d = false :=
              head_dropWhile_false _ _
            have htlen : ((rest.dropWhile isAsciiDigit).dropWhile
                isHashPunct).length ≤ n :=
              le_trans (lengthDropWhileLe _ _)
                (le_trans (lengthDropWhileLe _ rest) hrest)
            have hu_head_punct : ∀ d,
                (rest.dropWhile isAsciiDigit).head? = some d →
                isHashPunct d = true := by
              intro d hd
              cases hu : rest.dropWhile isAsciiDigit with
              | nil =>
                rw [hu] at hd
                simp at hd
              | cons u0 urest =>
                rw [hu] at hd
                have hdu : u0 = d := by simpa using hd
                subst hdu
                rw [hu] at hps
                rw [List.takeWhile_cons] at hps
                by_cases hp0 : isHashPunct u0 = true
                · exact hp0
                · rw [if_neg hp0] at hps
                  simp at hps
            have hhtpf : startsWithChars ['h', 't', 't', 'p']
                (rest.dropWhile isAsciiDigit) = false := by
              cases hu : rest.dropWhile isAsciiDigit with
              | nil => rfl
              | cons u0 urest =>
                have hp0 : isHashPunct u0 = true :=
                  hu_head_punct u0 (by rw [hu]; rfl)
                have hne : ('h' : Char) ≠ u0 := by
                  intro heq
                  have := (hashPunct_facts u0 hp0).2.2.2.2.1
                  exact this heq.symm
                simp [startsWithChars, hne]
            rw [replaceHashUrl_no_trigger rest
              (by rw [hdsf, hhtpf]; rfl)]
            have hrw : replaceHashUrl rest =
                rest.takeWhile isAsciiDigit ++
                  ((rest.dropWhile isAsciiDigit).takeWhile isHashPunct ++
                    replaceHashUrl ((rest.dropWhile
                      isAsciiDigit).dropWhile isHashPunct)) := by
              conv_lhs =>
                rw [show rest = rest.takeWhile isAsciiDigit ++
                  rest.dropWhile isAsciiDigit from
                  (List.takeWhile_append_dropWhile _ _).symm]
              rw [replaceHashUrl_append_no_hash _ _ hdnh]
              congr 1
              conv_lhs =>
                rw [show rest.dropWhile isAsciiDigit =
                  (rest.dropWhile isAsciiDigit).takeWhile isHashPunct ++
                    (rest.dropWhile isAsciiDigit).dropWhile isHashPunct
                  from (List.takeWhile_append_dropWhile _ _).symm]
              exact replaceHashUrl_append_no_hash _ _ hpnh
            have hps_head_digit : ∀ c,
                ((rest.dropWhile isAsciiDigit).takeWhile isHashPunct ++
                  replaceHashUrl ((rest.dropWhile isAsciiDigit).dropWhile
                    isHashPunct)).head? = some c →
                isAsciiDigit c = false := by
              apply head_fails_append_left
              · exact (isEmpty_eq_false_iff _).mp hps
              · intro c hc
                exact (hashPunct_facts c
                  (hpunct c (head?_mem _ c hc))).2.2.1
            obtain ⟨hs1, hs2⟩ := run_split isAsciiDigit
              (rest.takeWhile isAsciiDigit)
              ((rest.dropWhile isAsciiDigit).takeWhile isHashPunct ++
                replaceHashUrl ((rest.dropWhile isAsciiDigit).dropWhile
                  isHashPunct)) hdig hps_head_digit
            obtain ⟨hs3, hs4⟩ := run_split isHashPunct
              ((rest.dropWhile isAsciiDigit).takeWhile isHashPunct)
              (replaceHashUrl ((rest.dropWhile isAsciiDigit).dropWhile
                isHashPunct)) hpunct
              (replaceHashUrl_head_fails _ _ hth)
            have hw3 : (((replaceHashUrl rest).takeWhile
                isAsciiDigit).isEmpty ||
                (((replaceHashUrl rest).dropWhile isAsciiDigit).takeWhile
                  isHashPunct).isEmpty) = false := by
              rw [hrw, hs1, hs2, hs3, hdsf, hps]
              rfl
            rw [replaceHashNumber_trigger _ hw3]
            rw [hrw, hs1, hs2, hs3, hs4, ih _ htlen]
            -- other side
            rw [replaceHashNumber_trigger rest (by rw [hdsf, hps]; rfl)]
            have hds_sp : ∀ c, (' ' :: ((rest.dropWhile
                isAsciiDigit).takeWhile isHashPunct ++
                replaceHashNumber ((rest.dropWhile
                  isAsciiDigit).dropWhile isHashPunct))).head? = some c →
                isAsciiDigit c = false := by
              intro c hc
              have : c = ' ' := by simpa using hc.symm
              subst this
              decide
            obtain ⟨hs5, hs6⟩ := run_split isAsciiDigit
              (rest.takeWhile isAsciiDigit)
              (' ' :: ((rest.dropWhile isAsciiDigit).takeWhile
                isHashPunct ++ replaceHashNumber ((rest.dropWhile
                  isAsciiDigit).dropWhile isHashPunct))) hdig hds_sp
            have hw4 : (((rest.takeWhile isAsciiDigit ++
                (' ' :: ((rest.dropWhile isAsciiDigit).takeWhile
                  isHashPunct ++ replaceHashNumber ((rest.dropWhile
                    isAsciiDigit).dropWhile
                      isHashPunct)))).takeWhile isAsciiDigit).isEmpty ||
                !startsWithChars ['h', 't', 't', 'p']
                  ((rest.takeWhile isAsciiDigit ++
                    (' ' :: ((rest.dropWhile isAsciiDigit).takeWhile
                      isHashPunct ++ replaceHashNumber ((rest.dropWhile
                        isAsciiDigit).dropWhile
                          isHashPunct)))).dropWhile isAsciiDigit)) =
                true := by
              rw [hs5, hs6]
              simp [startsWithChars]
            rw [replaceHashUrl_no_trigger _ hw4,
              replaceHashUrl_append_no_hash _ _ hdnh,
              replaceHashUrl_cons_ne ' ' _ (by decide),
              replaceHashUrl_append_no_hash _ _ hpnh]
          · -- no punctuation run: rule 3 never fires at this hash
            have hps' : ((rest.dropWhile isAsciiDigit).takeWhile
                isHashPunct).isEmpty = true := by
              revert hps
              cases ((rest.dropWhile isAsciiDigit).takeWhile
                isHashPunct).isEmpty <;> simp
            have hup : ∀ d, (rest.dropWhile isAsciiDigit).head? =
                some d → isHashPunct d = false :=
              (takeWhile_eq_nil_iff_head _ _).mp
                ((isEmpty_eq_true_iff _).mp hps')
            by_cases hhtp : startsWithChars ['h', 't', 't', 'p']
                (rest.dropWhile isAsciiDigit) = true
            · -- rule 4 fires
              have hu4 := startsWith_http_decompose
                (rest.dropWhile isAsciiDigit) hhtp
              have htlen : ((rest.dropWhile isAsciiDigit).drop 4).length
                  ≤ n := by
                have h5 := lengthDropWhileLe isAsciiDigit rest
                rw [List.length_drop]
                omega
              rw [replaceHashUrl_trigger rest (by rw [hdsf, hhtp]; rfl)]
              have hds_sp : ∀ c, (' ' :: 'h' :: 't' :: 't' :: 'p' ::
                  replaceHashUrl ((rest.dropWhile isAsciiDigit).drop
                    4)).head? = some c → isAsciiDigit c = false := by
                intro c hc
                have : c = ' ' := by simpa using hc.symm
                subst this
                decide
              obtain ⟨hs1, hs2⟩ := run_split isAsciiDigit
                (rest.takeWhile isAsciiDigit)
                (' ' :: 'h' :: 't' :: 't' :: 'p' ::
                  replaceHashUrl ((rest.dropWhile isAsciiDigit).drop 4))
                hdig hds_sp
              have hw3 : (((rest.takeWhile isAsciiDigit ++
                  (' ' :: 'h' :: 't' :: 't' :: 'p' ::
                    replaceHashUrl ((rest.dropWhile isAsciiDigit).drop
                      4))).takeWhile isAsciiDigit).isEmpty ||
                  (((rest.takeWhile isAsciiDigit ++
                    (' ' :: 'h' :: 't' :: 't' :: 'p' ::
                      replaceHashUrl ((rest.dropWhile
                        isAsciiDigit).drop 4))).dropWhile
                          isAsciiDigit).takeWhile
                            isHashPunct).isEmpty) = true := by
                rw [hs1, hs2]
                simp [List.takeWhile_cons, isHashPunct]
              rw [replaceHashNumber_no_trigger _ hw3,
                replaceHashNumber_append_no_hash _ _ hdnh,
                replaceHashNumber_cons_ne ' ' _ (by decide),
                replaceHashNumber_cons_ne 'h' _ (by decide),
                replaceHashNumber_cons_ne 't' _ (by decide),
                replaceHashNumber_cons_ne 't' _ (by decide),
                replaceHashNumber_cons_ne 'p' _ (by decide),
                ih _ htlen]
              -- other side
              rw [replaceHashNumber_no_trigger rest
                (by rw [hps']; simp)]
              have hrn : replaceHashNumber rest =
                  rest.takeWhile isAsciiDigit ++
                    ('h' :: 't' :: 't' :: 'p' ::
                      replaceHashNumber ((rest.dropWhile
                        isAsciiDigit).drop 4)) := by
                conv_lhs =>
                  rw [show rest = rest.takeWhile isAsciiDigit ++
                    rest.dropWhile isAsciiDigit from
                    (List.takeWhile_append_dropWhile _ _).symm]
                rw [replaceHashNumber_append_no_hash _ _ hdnh]
                congr 1
                conv_lhs => rw [hu4]
                rw [replaceHashNumber_cons_ne 'h' _ (by decide),
                  replaceHashNumber_cons_ne 't' _ (by decide),
                  replaceHashNumber_cons_ne 't' _ (by decide),
                  replaceHashNumber_cons_ne 'p' _ (by decide)]
              obtain ⟨hs3, hs4⟩ := run_split isAsciiDigit
                (rest.takeWhile isAsciiDigit)
                ('h' :: 't' :: 't' :: 'p' ::
                  replaceHashNumber ((rest.dropWhile isAsciiDigit).drop
                    4)) hdig (by
                  intro d hd
                  have : d = 'h' := by simpa using hd.symm
                  subst this
                  decide)
              have hw4 : (((replaceHashNumber rest).takeWhile
                  isAsciiDigit).isEmpty ||
                  !startsWithChars ['h', 't', 't', 'p']
                    ((replaceHashNumber rest).dropWhile isAsciiDigit)) =
                  false := by
                rw [hrn, hs3, hs4, hdsf]
                rw [show startsWithChars ['h', 't', 't', 'p']
                  ('h' :: 't' :: 't' :: 'p' ::
                    replaceHashNumber ((rest.dropWhile
                      isAsciiDigit).drop 4)) = true from
                  startsWithChars_append_self ['h', 't', 't', 'p'] _]
                rfl
              rw [replaceHashUrl_trigger _ hw4, hrn, hs3, hs4]
              rfl
            · -- neither rule fires at this hash
              have hhtpf : startsWithChars ['h', 't', 't', 'p']
                  (rest.dropWhile isAsciiDigit) = false := by
                revert hhtp
                cases startsWithChars ['h', 't', 't', 'p']
                  (rest.dropWhile isAsciiDigit) <;> simp
              have hrn_split : replaceHashNumber rest =
                  rest.takeWhile isAsciiDigit ++
                    replaceHashNumber (rest.dropWhile isAsciiDigit) := by
                conv_lhs =>
                  rw [show rest = rest.takeWhile isAsciiDigit ++
                    rest.dropWhile isAsciiDigit from
                    (List.takeWhile_append_dropWhile _ _).symm]
                exact replaceHashNumber_append_no_hash _ _ hdnh
              have hru_split : replaceHashUrl rest =
                  rest.takeWhile isAsciiDigit ++
                    replaceHashUrl (rest.dropWhile isAsciiDigit) := by
                conv_lhs =>
                  rw [show rest = rest.takeWhile isAsciiDigit ++
                    rest.dropWhile isAsciiDigit from
                    (List.takeWhile_append_dropWhile _ _).symm]
                exact replaceHashUrl_append_no_hash _ _ hdnh
              obtain ⟨hs1, hs2⟩ := run_split isAsciiDigit
                (rest.takeWhile isAsciiDigit)
                (replaceHashUrl (rest.dropWhile isAsciiDigit)) hdig
                (replaceHashUrl_head_fails _ _ huh)
              obtain ⟨hs3, hs4⟩ := run_split isAsciiDigit
                (rest.takeWhile isAsciiDigit)
                (replaceHashNumber (rest.dropWhile isAsciiDigit)) hdig
                (replaceHashNumber_head_fails _ _ huh)
              have hw3 : (((replaceHashUrl rest).takeWhile
                  isAsciiDigit).isEmpty ||
                  (((replaceHashUrl rest).dropWhile
                    isAsciiDigit).takeWhile isHashPunct).isEmpty) =
                  true := by
                rw [hru_split, hs1, hs2]
                have : ((replaceHashUrl (rest.dropWhile
                    isAsciiDigit)).takeWhile isHashPunct).isEmpty =
                    true := by
                  rw [isEmpty_eq_true_iff, takeWhile_eq_nil_iff_head]
                  exact replaceHashUrl_head_fails _ _ hup
                rw [this]
                simp
              have hw4 : (((replaceHashNumber rest).takeWhile
                  isAsciiDigit).isEmpty ||
                  !startsWithChars ['h', 't', 't', 'p']
                    ((replaceHashNumber rest).dropWhile isAsciiDigit)) =
                  true := by
                rw [hrn_split, hs3, hs4,
                  startsWith_replaceHashNumber _ (by decide) _, hhtpf]
                simp
              rw [replaceHashUrl_no_trigger rest
                (by rw [hdsf, hhtpf]; rfl),
                replaceHashNumber_no_trigger _ hw3,
                replaceHashNumber_no_trigger rest (by rw [hps']; simp),
                replaceHashUrl_no_trigger _ hw4, ih rest hrest]
      · rw [replaceHashUrl_cons_ne c rest hc3,
          replaceHashNumber_cons_ne c _ hc3,
          replaceHashNumber_cons_ne c rest hc3,
          replaceHashUrl_cons_ne c _ hc3, ih rest hrest]

/-- **C8.** Substitution rules 2 (mention linking), 3 (numeric-hashtag
punctuation spacing) and 4 (numeric-hashtag http spacing) operate on
disjoint patterns: applied after rule 1 (newline indentation), any of
the six relative orders yields the same text as the source order
rule 2, then 3, then 4. -/
theorem formatter_rules_commute (l : List Char) :
    replaceHashNumber (replaceHashUrl (replaceAccount
      (indentNewlines l))) =
      replaceHashUrl (replaceHashNumber (replaceAccount
        (indentNewlines l))) ∧
    replaceHashUrl (replaceAccount (replaceHashNumber
      (indentNewlines l))) =
      replaceHashUrl (replaceHashNumber (replaceAccount
        (indentNewlines l))) ∧
    replaceHashNumber (replaceAccount (replaceHashUrl
      (indentNewlines l))) =
      replaceHashUrl (replaceHashNumber (replaceAccount
        (indentNewlines l))) ∧
    replaceAccount (replaceHashUrl (replaceHashNumber
      (indentNewlines l))) =
      replaceHashUrl (replaceHashNumber (replaceAccount
        (indentNewlines l))) ∧
    replaceAccount (replaceHashNumber (replaceHashUrl
      (indentNewlines l))) =
      replaceHashUrl (replaceHashNumber (replaceAccount
        (indentNewlines l))) := by
  have c23 : ∀ x : List Char,
      replaceAccount (replaceHashNumber x) =
        replaceHashNumber (replaceAccount x) :=
    fun x => comm_ra_rhn x.length x (le_refl _)
  have c24 : ∀ x : List Char,
      replaceAccount (replaceHashUrl x) =
        replaceHashUrl (replaceAccount x) :=
    fun x => comm_ra_rhu x.length x (le_refl _)
  have c34 : ∀ x : List Char,
      replaceHashNumber (replaceHashUrl x) =
        replaceHashUrl (replaceHashNumber x) :=
    fun x => comm_rhn_rhu x.length x (le_refl _)
  refine ⟨c34 _, ?_, ?_, ?_, ?_⟩
  · rw [c23]
  · rw [c24, c34]
  · rw [c24, c23]
  · rw [c23, c24, c34]
